import Mathlib

/-!
Verification development for the markdown-to-JSON extraction engine of
cli/merge_md_to_json.py.

Python strings are embedded as lists of characters (type PyStr); Python
date objects as PyDate triples validated exactly like datetime.date
(constructor failure, a ValueError, is modelled by Option: none means the
call raised).  The ambient current year (datetime.now().year in the
source) is threaded as an explicit Nat parameter.  All definitions are
executable and mirror the source line by line; deviations forced by the
embedding are noted next to the definition they concern.
-/

/-- Python str embedded as a list of characters. -/
abbrev PyStr := List Char

/-- Turn a Lean string literal into the embedded representation. -/
def pys (s : String) : PyStr := s.data

/-- Python whitespace characters stripped by str.strip (ASCII subset). -/
def isPyWsp (c : Char) : Bool :=
  c == ' ' || c == '\t' || c == '\n' || c == '\r' || c == '\x0b' || c == '\x0c'

/-- Python str.strip(). -/
def pyStrip (s : PyStr) : PyStr :=
  ((s.dropWhile isPyWsp).reverse.dropWhile isPyWsp).reverse

/-- Python str.startswith. -/
def strStarts : PyStr → PyStr → Bool
  | _, [] => true
  | [], _ :: _ => false
  | c :: cs, p :: ps => c == p && strStarts cs ps

/-- Python str.endswith. -/
def strEnds (s p : PyStr) : Bool := strStarts s.reverse p.reverse

/-- Python substring membership test (the in operator on str). -/
def strHas : PyStr → PyStr → Bool
  | [], n => strStarts [] n
  | c :: cs, n => strStarts (c :: cs) n || strHas cs n

/-- ASCII lowering of one character (Python str.lower on ASCII input). -/
def lowerChar (c : Char) : Char :=
  if 'A' ≤ c && c ≤ 'Z' then Char.ofNat (c.toNat + 32) else c

/-- Python str.lower (ASCII fragment; all source keywords are ASCII). -/
def pyLower (s : PyStr) : PyStr := s.map lowerChar

/-- Python datetime.date value. -/
structure PyDate where
  year : Nat
  month : Nat
  day : Nat
deriving DecidableEq, Repr

/-- Python date comparison (lexicographic on year, month, day). -/
def dateLt (a b : PyDate) : Bool :=
  a.year < b.year ||
    (a.year == b.year && (a.month < b.month || (a.month == b.month && a.day < b.day)))

/-- Python date less-or-equal. -/
def dateLe (a b : PyDate) : Bool := dateLt a b || a == b

/-- Python date.max, the sentinel used for unparseable filenames. -/
def dateMax : PyDate := ⟨9999, 12, 31⟩

/-- Gregorian leap-year rule used by datetime.date. -/
def isLeapYear (y : Nat) : Bool := y % 4 == 0 && (y % 100 != 0 || y % 400 == 0)

/-- Length of a month as validated by the datetime.date constructor. -/
def daysInMonth (y m : Nat) : Nat :=
  if m == 2 then (if isLeapYear y then 29 else 28)
  else if m == 4 || m == 6 || m == 9 || m == 11 then 30
  else 31

/-- Validity check performed by the datetime.date constructor. -/
def validDate (y m d : Nat) : Bool :=
  decide (1 ≤ y) && decide (y ≤ 9999) && decide (1 ≤ m) && decide (m ≤ 12) &&
    decide (1 ≤ d) && decide (d ≤ daysInMonth y m)

/-- datetime.date(y, m, d); none models the ValueError raised on invalid input. -/
def mkDate (y m d : Nat) : Option PyDate :=
  if validDate y m d then some ⟨y, m, d⟩ else none

/-- Numeric value of an ASCII digit. -/
def digitVal (c : Char) : Nat := c.toNat - 48

/-- Candidate parses of a greedy one-or-two-digit group, longest first,
exactly the backtracking order of the regex fragment for such a group. -/
def take12 : PyStr → List (Nat × PyStr)
  | a :: b :: rest =>
    if a.isDigit then
      if b.isDigit then
        [(digitVal a * 10 + digitVal b, rest), (digitVal a, b :: rest)]
      else [(digitVal a, b :: rest)]
    else []
  | [a] => if a.isDigit then [(digitVal a, [])] else []
  | [] => []

/-- Try match continuations in backtracking order. -/
def tryEach (cands : List (Nat × PyStr)) (k : Nat → PyStr → Option α) : Option α :=
  match cands with
  | [] => none
  | (v, r) :: rest =>
    match k v r with
    | some x => some x
    | none => tryEach rest k

/-- re.match of the filename pattern: two digit groups separated by a
hyphen followed by the literal .md, anchored at the start, trailing
characters allowed. -/
def fnameMatch (s : PyStr) : Option (Nat × Nat) :=
  tryEach (take12 s) fun mo r1 =>
    match r1 with
    | '-' :: r2 =>
      tryEach (take12 r2) fun dy r3 =>
        match r3 with
        | '.' :: 'm' :: 'd' :: _ => some (mo, dy)
        | _ => none
    | _ => none

/-- re.match of the batch-range pattern: month dot day hyphen month dot
day, four greedy one-or-two-digit groups, anchored at the start, trailing
characters allowed. -/
def rangeMatch (s : PyStr) : Option (Nat × Nat × Nat × Nat) :=
  tryEach (take12 s) fun sm r1 =>
    match r1 with
    | '.' :: r2 =>
      tryEach (take12 r2) fun sd r3 =>
        match r3 with
        | '-' :: r4 =>
          tryEach (take12 r4) fun em r5 =>
            match r5 with
            | '.' :: r6 => tryEach (take12 r6) fun ed _ => some (sm, sd, em, ed)
            | _ => none
        | _ => none
    | _ => none

/-- extract_date_from_filename: parse the month-day filename and build a
date in the given year; none covers both a failed regex match and the
ValueError branch of the source (which returns None either way). -/
def extract_date_from_filename (filename : PyStr) (year : Nat) : Option PyDate :=
  match fnameMatch filename with
  | none => none
  | some (m, d) => mkDate year m d

/-- get_date_range_from_folder.  The outer Option models raising: the
source constructs datetime.date values without a try block, so an
in-pattern folder name with invalid calendar numbers raises ValueError
(outer none).  A folder name that does not match the pattern yields the
no-range triple.  The folder name argument is the basename already. -/
def get_date_range_from_folder (folderName : PyStr) (nowYear : Nat) :
    Option (Option PyDate × Option PyDate × Nat) :=
  match rangeMatch folderName with
  | some (sm, sd, em, ed) =>
    let endYear := if em < sm then nowYear + 1 else nowYear
    match mkDate nowYear sm sd, mkDate endYear em ed with
    | some s, some e => some (some s, some e, nowYear)
    | _, _ => none
  | none => some (none, none, nowYear)

/-- Candidate sort key for one filename, as computed inside
sort_files_by_date: the parsed date, bumped into the following year when a
range is present and the file month precedes the range start month (the
bump re-validates like date.replace and can raise, hence the outer none),
or the sentinel date.max when the filename does not parse. -/
def candDate (startOpt endOpt : Option PyDate) (year : Nat) (filename : PyStr) :
    Option PyDate :=
  match extract_date_from_filename filename year with
  | some fd =>
    match startOpt, endOpt with
    | some sd, some _ =>
      if fd.month < sd.month then mkDate (year + 1) fd.month fd.day else some fd
    | _, _ => some fd
  | none => some dateMax

/-- Stable insertion of one keyed pair: walk past strictly smaller keys
only, so an element inserted from the left stays in front of equal keys.
Any stable ascending sort by key computes the same list as the stable
Timsort behind list.sort, so this realizes the source ordering. -/
def insertPair (p : PyDate × PyStr) : List (PyDate × PyStr) → List (PyDate × PyStr)
  | [] => [p]
  | q :: qs => if dateLt q.1 p.1 then q :: insertPair p qs else p :: q :: qs

/-- Stable ascending sort by the date key. -/
def stableSortPairs : List (PyDate × PyStr) → List (PyDate × PyStr)
  | [] => []
  | p :: ps => insertPair p (stableSortPairs ps)

/-- Sequence a list of optional values; none (a raise) propagates. -/
def optList : List (Option α) → Option (List α)
  | [] => some []
  | none :: _ => none
  | some x :: os =>
    match optList os with
    | some xs => some (x :: xs)
    | none => none

/-- The body of sort_files_by_date once the folder range is resolved:
pair every file with its candidate date (propagating the date.replace
ValueError as none) and stable-sort ascending by date. -/
def sort_files_with_range (mdFiles : List PyStr) (startOpt endOpt : Option PyDate)
    (year : Nat) : Option (List PyStr) :=
  match optList (mdFiles.map fun f => (candDate startOpt endOpt year f).map (⟨·, f⟩)) with
  | none => none
  | some pairs => some ((stableSortPairs pairs).map (·.2))

/-- sort_files_by_date: resolve the folder range, then order the files;
either stage can raise (outer none). -/
def sort_files_by_date (mdFiles : List PyStr) (folderName : PyStr) (nowYear : Nat) :
    Option (List PyStr) :=
  match get_date_range_from_folder folderName nowYear with
  | none => none
  | some (s, e, y) => sort_files_with_range mdFiles s e y

/-- Match the link regex (bracketed non-empty text, then a parenthesized
non-empty target) at the start of the string; returns text, target and
the remainder after the match.  The two character classes cannot contain
their own closing bracket, so the greedy groups are exactly the runs up
to the first closer and no backtracking survives a failure here. -/
def linkHere : PyStr → Option (PyStr × PyStr × PyStr)
  | '[' :: cs =>
    match cs.takeWhile (· != ']'), cs.dropWhile (· != ']') with
    | t :: ts, ']' :: '(' :: cs2 =>
      match cs2.takeWhile (· != ')'), cs2.dropWhile (· != ')') with
      | u :: us, ')' :: rest => some (t :: ts, u :: us, rest)
      | _, _ => none
    | _, _ => none
  | _ => none

/-- re.search of the link pattern: first match in left-to-right start
order; returns the link text and target. -/
def findLink : PyStr → Option (PyStr × PyStr)
  | [] => none
  | c :: cs =>
    match linkHere (c :: cs) with
    | some (t, u, _) => some (t, u)
    | none => findLink cs

/-- extract_link_from_text: the target of the first inline link, if any. -/
def extract_link_from_text (s : PyStr) : Option PyStr :=
  (findLink s).map (·.2)

/-- Fueled worker for re.sub of the link pattern with the text group as
replacement; every step consumes at least one character, so fuel equal to
the string length always suffices and the zero-fuel row is unreachable. -/
def subLinksF : Nat → PyStr → PyStr
  | 0, s => s
  | _ + 1, [] => []
  | n + 1, c :: cs =>
    match linkHere (c :: cs) with
    | some (t, _, rest) => t ++ subLinksF n rest
    | none => c :: subLinksF n cs

/-- re.sub replacing every inline link with its visible text. -/
def subLinks (s : PyStr) : PyStr := subLinksF s.length s

/-- re.sub of the anchored trailing date pattern: drop an optional
whitespace run followed by a parenthesized YYYY-MM-DD at the very end. -/
def stripDateSuffix (s : PyStr) : PyStr :=
  match s.reverse with
  | ')' :: d2 :: d1 :: '-' :: m2 :: m1 :: '-' :: y4 :: y3 :: y2 :: y1 :: '(' :: rest =>
    if [d2, d1, m2, m1, y4, y3, y2, y1].all Char.isDigit then
      (rest.dropWhile isPyWsp).reverse
    else s
  | _ => s

/-- C3 counterexample: the batch identifier 13.1-1.5 matches the range
pattern, encodes an invalid month, and the resolver raises (none) instead
of degrading or deferring validation, contrary to the claim that the
resolver never raises at this stage. -/
theorem C3_raises_counterexample :
    get_date_range_from_folder (pys "13.1-1.5") 2025 = none := by decide

/-- C3 amended: a non-matching identifier yields the no-range triple with
the current year, but a matching identifier raises ValueError exactly
when its start or (wrap-adjusted) end is not a valid calendar date;
validation is not deferred to FileOrdering. -/
theorem C3_resolver_behavior (folder : PyStr) (y : Nat) :
    (rangeMatch folder = none →
      get_date_range_from_folder folder y = some (none, none, y)) ∧
    (∀ sm sd em ed, rangeMatch folder = some (sm, sd, em, ed) →
      (get_date_range_from_folder folder y = none ↔
        ¬(validDate y sm sd = true ∧
          validDate (if em < sm then y + 1 else y) em ed = true))) := by
  constructor
  · intro h
    simp [get_date_range_from_folder, h]
  · intro sm sd em ed h
    by_cases h1 : validDate y sm sd = true
    · by_cases h2 : validDate (if em < sm then y + 1 else y) em ed = true
      · simp [get_date_range_from_folder, h, mkDate, h1, h2]
      · simp [get_date_range_from_folder, h, mkDate, h1, h2]
    · simp [get_date_range_from_folder, h, mkDate, h1]

/-- Witness for C3_resolver_behavior at concrete identifiers: abc does
not match and resolves to no-range; 2.30-3.1 matches with an invalid
start day and raises. -/
theorem C3_resolver_behavior_witness :
    get_date_range_from_folder (pys "abc") 2025 = some (none, none, 2025) ∧
    (get_date_range_from_folder (pys "2.30-3.1") 2025 = none ↔
      ¬(validDate 2025 2 30 = true ∧
        validDate (if (3 : Nat) < 2 then 2025 + 1 else 2025) 3 1 = true)) :=
  ⟨(C3_resolver_behavior (pys "abc") 2025).1 (by decide),
   (C3_resolver_behavior (pys "2.30-3.1") 2025).2 2 30 3 1 (by decide)⟩

/-- C4 counterexample: 7.12-7.6 matches the range pattern with
calendar-valid values, yet the resolved end date precedes the start date,
contrary to the claimed end-ge-start property. -/
theorem C4_reversed_range_counterexample :
    get_date_range_from_folder (pys "7.12-7.6") 2025 =
      some (some ⟨2025, 7, 12⟩, some ⟨2025, 7, 6⟩, 2025) ∧
    dateLe ⟨2025, 7, 12⟩ ⟨2025, 7, 6⟩ = false := by decide

/-- C4 amended: for a matching identifier that resolves without raising,
the end year equals the start year plus one exactly when the end month is
strictly smaller than the start month, and the resolved end date is at
least the start date provided the range is not reversed inside a single
month (end month equal to start month with a smaller end day). -/
theorem C4_range_order (folder : PyStr) (y sm sd em ed : Nat) (st en : PyDate)
    (hm : rangeMatch folder = some (sm, sd, em, ed))
    (hr : get_date_range_from_folder folder y = some (some st, some en, y)) :
    (en.year = st.year + 1 ↔ em < sm) ∧
    ((em ≠ sm ∨ sd ≤ ed) → dateLe st en = true) := by
  by_cases h1 : validDate y sm sd = true
  · by_cases h2 : validDate (if em < sm then y + 1 else y) em ed = true
    · simp [get_date_range_from_folder, hm, mkDate, h1, h2] at hr
      obtain ⟨hst, hen⟩ := hr
      by_cases hlt : em < sm
      · simp [hlt] at hen
        subst hst; subst hen
        simp [dateLe, dateLt]
        omega
      · simp [hlt] at hen
        subst hst; subst hen
        constructor
        · simp
          omega
        · intro hcase
          simp [dateLe, dateLt, beq_iff_eq, PyDate.mk.injEq]
          omega
    · simp [get_date_range_from_folder, hm, mkDate, h1, h2] at hr
  · simp [get_date_range_from_folder, hm, mkDate, h1] at hr

/-- Witness for C4_range_order at the concrete wrapped range 12.25-1.5
resolved in 2025: end year is start year plus one and the order holds. -/
theorem C4_range_order_witness :
    ((⟨2026, 1, 5⟩ : PyDate).year = (⟨2025, 12, 25⟩ : PyDate).year + 1 ↔ 1 < 12) ∧
    (((1 : Nat) ≠ 12 ∨ 25 ≤ 5) → dateLe ⟨2025, 12, 25⟩ ⟨2026, 1, 5⟩ = true) :=
  C4_range_order (pys "12.25-1.5") 2025 12 25 1 5 ⟨2025, 12, 25⟩ ⟨2026, 1, 5⟩
    (by decide) (by decide)

theorem dateLt_self_false (a : PyDate) : dateLt a a = false := by
  simp [dateLt]

theorem dateLe_of_lt (a b : PyDate) (h : dateLt a b = true) : dateLe a b = true := by
  simp [dateLe, h]

theorem dateLe_of_not_lt (a b : PyDate) (h : dateLt b a = false) : dateLe a b = true := by
  cases a; cases b
  simp [dateLt, dateLe] at *
  omega

theorem dateLe_trans (a b c : PyDate) (h1 : dateLe a b = true) (h2 : dateLe b c = true) :
    dateLe a c = true := by
  cases a; cases b; cases c
  simp [dateLt, dateLe] at *
  omega

theorem insertPair_perm (p : PyDate × PyStr) (l : List (PyDate × PyStr)) :
    (insertPair p l).Perm (p :: l) := by
  induction l with
  | nil => simp [insertPair]
  | cons q qs ih =>
    by_cases hlt : dateLt q.1 p.1 = true
    · simp only [insertPair, hlt, if_true]
      exact (ih.cons q).trans (List.Perm.swap p q qs)
    · have hlt' : dateLt q.1 p.1 = false := by simpa using hlt
      simp [insertPair, hlt']

theorem insertPair_mem {x p : PyDate × PyStr} {l : List (PyDate × PyStr)}
    (h : x ∈ insertPair p l) : x = p ∨ x ∈ l := by
  have := (insertPair_perm p l).mem_iff.mp h
  simpa using this

theorem insertPair_pairwise (p : PyDate × PyStr) (l : List (PyDate × PyStr))
    (h : l.Pairwise (fun a b => dateLe a.1 b.1 = true)) :
    (insertPair p l).Pairwise (fun a b => dateLe a.1 b.1 = true) := by
  induction l with
  | nil => simp [insertPair]
  | cons q qs ih =>
    rw [List.pairwise_cons] at h
    obtain ⟨hq, hqs⟩ := h
    by_cases hlt : dateLt q.1 p.1 = true
    · simp only [insertPair, hlt, if_true]
      rw [List.pairwise_cons]
      refine ⟨?_, ih hqs⟩
      intro x hx
      rcases insertPair_mem hx with rfl | hx'
      · exact dateLe_of_lt _ _ hlt
      · exact hq x hx'
    · have hlt' : dateLt q.1 p.1 = false := by simpa using hlt
      simp only [insertPair, hlt', Bool.false_eq_true, if_false]
      rw [List.pairwise_cons]
      refine ⟨?_, List.pairwise_cons.mpr ⟨hq, hqs⟩⟩
      intro x hx
      rcases List.mem_cons.mp hx with rfl | hx'
      · exact dateLe_of_not_lt _ _ hlt'
      · exact dateLe_trans _ _ _ (dateLe_of_not_lt _ _ hlt') (hq x hx')

theorem insertPair_filter (p : PyDate × PyStr) (l : List (PyDate × PyStr)) (d : PyDate) :
    (insertPair p l).filter (fun q => q.1 == d) =
      if p.1 == d then p :: l.filter (fun q => q.1 == d)
      else l.filter (fun q => q.1 == d) := by
  induction l with
  | nil => by_cases hp : (p.1 == d) = true <;> simp [insertPair, hp]
  | cons q qs ih =>
    by_cases hlt : dateLt q.1 p.1 = true
    · by_cases hq : (q.1 == d) = true
      · have hpd : (p.1 == d) = false := by
          rcases Bool.eq_false_or_eq_true (p.1 == d) with h | h
          · exfalso
            have h1 : q.1 = d := by simpa using hq
            have h2 : p.1 = d := by simpa using h
            rw [h1, h2] at hlt
            rw [dateLt_self_false] at hlt
            exact Bool.false_ne_true hlt
          · exact h
        simp [insertPair, hlt, List.filter_cons, hq, hpd, ih]
      · simp [insertPair, hlt, List.filter_cons, hq, ih]
    · have hlt' : dateLt q.1 p.1 = false := by simpa using hlt
      by_cases hp : (p.1 == d) = true <;>
        simp [insertPair, hlt', List.filter_cons, hp]

theorem stableSortPairs_perm (l : List (PyDate × PyStr)) :
    (stableSortPairs l).Perm l := by
  induction l with
  | nil => simp [stableSortPairs]
  | cons p ps ih =>
    exact (insertPair_perm p (stableSortPairs ps)).trans (ih.cons p)

theorem stableSortPairs_pairwise (l : List (PyDate × PyStr)) :
    (stableSortPairs l).Pairwise (fun a b => dateLe a.1 b.1 = true) := by
  induction l with
  | nil => simp [stableSortPairs]
  | cons p ps ih => exact insertPair_pairwise p _ ih

theorem stableSortPairs_filter (l : List (PyDate × PyStr)) (d : PyDate) :
    (stableSortPairs l).filter (fun q => q.1 == d) = l.filter (fun q => q.1 == d) := by
  induction l with
  | nil => simp [stableSortPairs]
  | cons p ps ih =>
    rw [stableSortPairs, insertPair_filter, List.filter_cons]
    simp [ih]

/-- The candidate date actually used as sort key (sentinel for failures);
meaningful whenever candDate did not raise. -/
def candD (s e : Option PyDate) (y : Nat) (f : PyStr) : PyDate :=
  (candDate s e y f).getD dateMax

theorem dateLt_asymm (a b : PyDate) (h1 : dateLt a b = true) (h2 : dateLt b a = true) :
    False := by
  cases a; cases b
  simp [dateLt] at h1 h2
  omega

theorem mkDate_some {y m d : Nat} {fd : PyDate} (h : mkDate y m d = some fd) :
    fd = ⟨y, m, d⟩ ∧ validDate y m d = true := by
  by_cases hv : validDate y m d = true
  · simp [mkDate, hv] at h
    exact ⟨h.symm, hv⟩
  · simp [mkDate, hv] at h

theorem daysInMonth_le (y m : Nat) : daysInMonth y m ≤ 31 := by
  unfold daysInMonth
  split
  · split <;> omega
  · split <;> omega

theorem optList_cands (s e : Option PyDate) (y : Nat) (files : List PyStr)
    (hc : ∀ f ∈ files, candDate s e y f ≠ none) :
    optList (files.map fun f => (candDate s e y f).map (⟨·, f⟩)) =
      some (files.map fun f => (candD s e y f, f)) := by
  induction files with
  | nil => simp [optList]
  | cons f fs ih =>
    have h1 : candDate s e y f ≠ none := hc f (by simp)
    cases h : candDate s e y f with
    | none => exact absurd h h1
    | some d =>
      have ih' := ih (fun g hg => hc g (by simp [hg]))
      simp [optList, h, ih', candD]

theorem candD_lt_max (s e : Option PyDate) (y : Nat) (f : PyStr)
    (hy : y ≤ 9998) (hs : ∀ sd, s = some sd → sd.month ≤ 12)
    (hc : candDate s e y f ≠ none) (hne : candD s e y f ≠ dateMax) :
    dateLt (candD s e y f) dateMax = true := by
  cases hext : extract_date_from_filename f y with
  | none => exact absurd (by simp [candD, candDate, hext]) hne
  | some fd =>
    obtain ⟨hfy, hfm, hfd⟩ : fd.year = y ∧ fd.month ≤ 12 ∧ fd.day ≤ 31 := by
      unfold extract_date_from_filename at hext
      cases hfm2 : fnameMatch f with
      | none => rw [hfm2] at hext; cases hext
      | some md =>
        rw [hfm2] at hext
        obtain ⟨m, d⟩ := md
        obtain ⟨rfl, hv⟩ := mkDate_some hext
        simp [validDate] at hv
        have hd31 := daysInMonth_le y m
        refine ⟨rfl, ?_, ?_⟩ <;> simp <;> omega
    cases s with
    | none =>
      have hcand : candD none e y f = fd := by simp [candD, candDate, hext]
      rw [hcand]
      cases fd
      simp [dateLt, dateMax] at hfy hfm hfd ⊢
      omega
    | some sd =>
      cases e with
      | none =>
        have hcand : candD (some sd) none y f = fd := by simp [candD, candDate, hext]
        rw [hcand]
        cases fd
        simp [dateLt, dateMax] at hfy hfm hfd ⊢
        omega
      | some se =>
        by_cases hm : fd.month < sd.month
        · have hcand0 : candDate (some sd) (some se) y f = mkDate (y + 1) fd.month fd.day := by
            simp [candDate, hext, hm]
          cases hbump : mkDate (y + 1) fd.month fd.day with
          | none => rw [hcand0] at hc; exact absurd hbump hc
          | some g =>
            have hcand : candD (some sd) (some se) y f = g := by
              simp [candD, hcand0, hbump]
            obtain ⟨rfl, hv⟩ := mkDate_some hbump
            have hsm := hs sd rfl
            rw [hcand]
            simp [dateLt, dateMax]
            omega
        · have hcand : candD (some sd) (some se) y f = fd := by
            simp [candD, candDate, hext, hm]
          rw [hcand]
          cases fd
          simp [dateLt, dateMax] at hfy hfm hfd ⊢
          omega

/-- C5 amended: once the folder range is resolved, FileOrdering returns a
stable ascending ordering by candidate date with sentinel-dated
unparseable names last, provided no year-bump lands on an invalid
calendar day (in which case the source raises, see the counterexample)
and the reference year stays below the sentinel year. -/
theorem C5_file_ordering (mdFiles : List PyStr) (s e : Option PyDate) (y : Nat)
    (hy : y ≤ 9998) (hs : ∀ sd, s = some sd → sd.month ≤ 12)
    (hc : ∀ f ∈ mdFiles, candDate s e y f ≠ none) :
    ∃ out, sort_files_with_range mdFiles s e y = some out ∧
      out.Perm mdFiles ∧
      out.Pairwise (fun a b => dateLe (candD s e y a) (candD s e y b) = true) ∧
      (∀ d, out.filter (fun f => candD s e y f == d) =
        mdFiles.filter (fun f => candD s e y f == d)) ∧
      (∀ f ∈ mdFiles, extract_date_from_filename f y = none → candD s e y f = dateMax) ∧
      (∀ i j : Fin out.length, candD s e y (out.get i) = dateMax →
        candD s e y (out.get j) ≠ dateMax → (j : Nat) < (i : Nat)) := by
  have hopt := optList_cands s e y mdFiles hc
  set pairs := mdFiles.map (fun f => (candD s e y f, f)) with hpairs
  have hmem : ∀ q ∈ stableSortPairs pairs, q.1 = candD s e y q.2 := by
    intro q hq
    have hq2 : q ∈ pairs := (stableSortPairs_perm pairs).mem_iff.mp hq
    rw [hpairs] at hq2
    obtain ⟨f, _, rfl⟩ := List.mem_map.mp hq2
    rfl
  have hmap2 : pairs.map (·.2) = mdFiles := by
    rw [hpairs, List.map_map]
    simp [Function.comp_def]
  have hperm : ((stableSortPairs pairs).map (·.2)).Perm mdFiles := by
    have h2 := (stableSortPairs_perm pairs).map (·.2)
    rwa [hmap2] at h2
  have hpw : ((stableSortPairs pairs).map (·.2)).Pairwise
      (fun a b => dateLe (candD s e y a) (candD s e y b) = true) := by
    rw [List.pairwise_map]
    refine (stableSortPairs_pairwise pairs).imp_of_mem ?_
    intro a b ha hb hab
    rwa [hmem a ha, hmem b hb] at hab
  refine ⟨(stableSortPairs pairs).map (·.2), ?_, hperm, hpw, ?_, ?_, ?_⟩
  · simp [sort_files_with_range, hopt]
  · intro d
    rw [List.filter_map]
    have hcong : (stableSortPairs pairs).filter ((fun f => candD s e y f == d) ∘ (·.2)) =
        (stableSortPairs pairs).filter (fun q => q.1 == d) := by
      apply List.filter_congr
      intro q hq
      simp [Function.comp_def, hmem q hq]
    rw [hcong, stableSortPairs_filter, hpairs, List.filter_map]
    simp [Function.comp_def]
  · intro f _ hext
    simp [candD, candDate, hext]
  · intro i j hi hj
    by_contra hij
    push_neg at hij
    rcases Nat.lt_or_ge (i : Nat) (j : Nat) with hlt | hge
    · have hR := List.pairwise_iff_get.mp hpw i j (by exact hlt)
      rw [hi] at hR
      have hjmem : ((stableSortPairs pairs).map (·.2)).get j ∈
          ((stableSortPairs pairs).map (·.2)) := List.get_mem _ j.1 j.2
      have hjfile : ((stableSortPairs pairs).map (·.2)).get j ∈ mdFiles :=
        hperm.mem_iff.mp hjmem
      have hbound := candD_lt_max s e y _ hy hs (hc _ hjfile) hj
      rcases (by simpa [dateLe] using hR :
          dateLt dateMax (candD s e y (((stableSortPairs pairs).map (·.2)).get j)) = true ∨
          dateMax = candD s e y (((stableSortPairs pairs).map (·.2)).get j)) with h | h
      · exact dateLt_asymm _ _ h hbound
      · exact hj h.symm
    · have : (i : Nat) = (j : Nat) := by omega
      have : i = j := Fin.ext this
      rw [this] at hi
      exact hj hi

/-- Witness for C5_file_ordering: three concrete files without a range in
year 2025; the unparseable name sorts last and parseable ones ascend. -/
theorem C5_file_ordering_witness :
    ∃ out, sort_files_with_range [pys "7-7.md", pys "x.md", pys "7-6.md"] none none 2025 =
        some out ∧
      out.Perm [pys "7-7.md", pys "x.md", pys "7-6.md"] ∧
      out.Pairwise (fun a b => dateLe (candD none none 2025 a) (candD none none 2025 b) = true) ∧
      (∀ d, out.filter (fun f => candD none none 2025 f == d) =
        [pys "7-7.md", pys "x.md", pys "7-6.md"].filter (fun f => candD none none 2025 f == d)) ∧
      (∀ f ∈ [pys "7-7.md", pys "x.md", pys "7-6.md"],
        extract_date_from_filename f 2025 = none → candD none none 2025 f = dateMax) ∧
      (∀ i j : Fin out.length, candD none none 2025 (out.get i) = dateMax →
        candD none none 2025 (out.get j) ≠ dateMax → (j : Nat) < (i : Nat)) :=
  C5_file_ordering [pys "7-7.md", pys "x.md", pys "7-6.md"] none none 2025
    (by decide) (by simp) (by decide)

/-- C5 counterexample: a leap-day file inside a year-wrapping range makes
the year bump construct February 29 of a common year, so FileOrdering
raises instead of assigning the sentinel, contrary to the claim that no
input causes an error. -/
theorem C5_leap_bump_counterexample :
    sort_files_with_range [pys "2-29.md"] (some ⟨2024, 12, 25⟩) (some ⟨2025, 1, 5⟩) 2024 =
      none := by decide

/-- Python content.split on the newline character. -/
def splitNl : PyStr → List PyStr
  | [] => [[]]
  | '\n' :: rest => [] :: splitNl rest
  | c :: rest =>
    match splitNl rest with
    | l :: ls => (c :: l) :: ls
    | [] => [[c]]

/-- Delimiter-line test applied to an already stripped, non-empty line:
the two literal asterisk separators or any line of asterisks and spaces. -/
def isDelim (line : PyStr) : Bool :=
  line == pys "* * *" || line == pys "* *" ||
    line.all (fun c => c == '*' || c == ' ')

/-- A non-empty run of dashes (the stripped lookahead test of the source). -/
def dashOnly (t : PyStr) : Bool := !t.isEmpty && t.all (· == '-')

/-- Lookahead: the next raw line strips to a dash run. -/
def nextDashAny : List PyStr → Bool
  | [] => false
  | l2 :: _ => dashOnly (pyStrip l2)

/-- Lookahead: the next raw line strips to a dash run longer than n. -/
def nextDashLong (n : Nat) : List PyStr → Bool
  | [] => false
  | l2 :: _ => dashOnly (pyStrip l2) && decide ((pyStrip l2).length > n)

/-- An item dictionary as built by the parsers, before clean_items; a
missing title key is title none (item.get with empty default agrees). -/
structure RawItem where
  title : Option PyStr
  description : PyStr
  reference_link : Option PyStr
deriving DecidableEq, Repr

/-- An item dictionary as emitted by clean_items; title and
reference_link none model an absent key. -/
structure Item where
  title : Option PyStr
  description : PyStr
  reference_link : Option PyStr
deriving DecidableEq, Repr

/-- Append a line to the running description with a separating space
unless the description is still empty. -/
def appendDesc (it : RawItem) (txt : PyStr) : RawItem :=
  { it with description :=
      if it.description.isEmpty then txt else it.description ++ ' ' :: txt }

/-- Capture the first link of txt as reference_link if none is set yet
(extracted targets are never empty, matching the truthiness test). -/
def withLink (it : RawItem) (txt : PyStr) : RawItem :=
  match extract_link_from_text txt with
  | some u =>
    if it.reference_link = none then { it with reference_link := some u } else it
  | none => it

/-- One iteration of the clean_items loop.  The source guard for a falsy
item never fires because parsed item dictionaries are never empty. -/
def clean1 (item : RawItem) : Option Item :=
  let description := subLinks (pyStrip item.description)
  if description.isEmpty && (item.title.getD []).isEmpty then none
  else
    let titleRaw := item.title.getD []
    let description2 := if description.isEmpty then titleRaw else description
    let title := if description.isEmpty then ([] : PyStr) else titleRaw
    some { title := if title.isEmpty then none else some title
           description := description2
           reference_link :=
             match item.reference_link with
             | some u => if u.isEmpty then none else some u
             | none => none }

/-- clean_items as the filterMap of the per-item step (the source loop
appends exactly the kept items in order). -/
def clean_items (items : List RawItem) : List Item := items.filterMap clean1

/-- The keyword tables, in source dictionary insertion order.  The map is
only ever indexed with one of the three categorized section names, so the
RESEARCH table doubles as the fallthrough arm. -/
def subcategory_mapping (sec : PyStr) : List (PyStr × List PyStr) :=
  if sec == pys "BUSINESS" then
    [(pys "Funding & Investment",
      [pys "funding", pys "investment", pys "arr", pys "revenue", pys "raised",
       pys "series", pys "million", pys "valuation", pys "fund"]),
     (pys "Company Updates",
      [pys "ceo", pys "launches", pys "announces", pys "introduces", pys "steps",
       pys "role", pys "leadership", pys "partnership", pys "acquires",
       pys "apology", pys "grok"]),
     (pys "Regulatory Developments",
      [pys "antitrust", pys "complaint", pys "legislation", pys "eu",
       pys "regulatory", pys "legal"]),
     (pys "Market Trends",
      [pys "market", pys "trend", pys "industry", pys "companies", pys "race",
       pys "pay per", pys "analysis", pys "study", pys "mcp", pys "protocol",
       pys "shopping", pys "prime day"])]
  else if sec == pys "TECHNOLOGY" then
    [(pys "Open Source Projects",
      [pys "github", pys "open-source", pys "stars", pys "repository",
       pys "langchain", pys "pytorch"]),
     (pys "Models & Datasets",
      [pys "model", pys "dataset", pys "huggingface", pys "parameters",
       pys "instruct", pys "downloads"]),
     (pys "Developer Tools & Demos",
      [pys "demo", pys "space", pys "gradio", pys "docker", pys "interface",
       pys "likes"])]
  else
    [(pys "Paper of the Week", [pys "paper of the day", pys "paper of the week"]),
     (pys "Notable Research", [pys "notable research", pys "research"])]

/-- detect_subcategory: first table entry with a case-insensitive keyword
hit, else the per-section default (the final first-key return of the
source is unreachable for the three section names and kept verbatim). -/
def detect_subcategory (text : PyStr) (sec : PyStr) : PyStr :=
  match (subcategory_mapping sec).find?
      (fun p => p.2.any (fun kw => strHas (pyLower text) kw)) with
  | some p => p.1
  | none =>
    if sec == pys "BUSINESS" then pys "Company Updates"
    else if sec == pys "TECHNOLOGY" then pys "Developer Tools & Demos"
    else if sec == pys "RESEARCH" then pys "Notable Research"
    else ((subcategory_mapping sec).map (·.1)).headD []

/-- The while loop of parse_simple_section with its full state: remaining
raw lines, open item, the bold-echo suppression flag, accumulated items.
The empty-tail arms inside the two-line consuming branch replicate the
loop exit (the guard makes them unreachable anyway). -/
def simpleLoop (sec : PyStr) : List PyStr → Option RawItem → Bool → List RawItem → List RawItem
  | [], curItem, _justCreated, items =>
    (match curItem with
     | some it => items ++ [it]
     | none => items)
  | l :: rest, curItem, justCreated, items =>
    let line := pyStrip l
    if line.isEmpty then simpleLoop sec rest curItem justCreated items
    else if isDelim line then simpleLoop sec rest curItem justCreated items
    else if sec == pys "PRODUCTS" then
      if nextDashLong 10 rest then
        let items2 :=
          (match curItem with
           | some it => items ++ [it]
           | none => items)
        match rest with
        | _l2 :: rest2 => simpleLoop sec rest2 (some ⟨some line, [], none⟩) true items2
        | [] => items2 ++ [⟨some line, [], none⟩]
      else if justCreated && strStarts line (pys "**[") && strEnds line (pys "**") then
        simpleLoop sec rest curItem false items
      else
        let jc := if justCreated && !strStarts line (pys "**[") then false else justCreated
        match curItem with
        | some it => simpleLoop sec rest (some (withLink (appendDesc it line) line)) jc items
        | none => simpleLoop sec rest none jc items
    else
      if !line.isEmpty && !strStarts line (pys "#") then
        if strStarts line (pys "•") then
          let description := pyStrip (line.drop 1)
          if description.isEmpty then simpleLoop sec rest curItem justCreated items
          else simpleLoop sec rest curItem justCreated
            (items ++ [⟨none, description, extract_link_from_text description⟩])
        else
          simpleLoop sec rest curItem justCreated
            (items ++ [⟨none, line, extract_link_from_text line⟩])
      else simpleLoop sec rest curItem justCreated items

/-- parse_simple_section: run the loop on the split content and clean;
the validation pass of the source only prints warnings. -/
def parse_simple_section (content : PyStr) (sec : PyStr) : List Item :=
  clean_items (simpleLoop sec (splitNl content) none false [])

/-- Per-section subcategory lists with items, the result dictionary of
parse_categorized_section before cleaning. -/
abbrev CatRes := List (PyStr × List RawItem)

/-- result dictionary with every fixed subcategory mapped to an empty list. -/
def initRes (sec : PyStr) : CatRes := (subcategory_mapping sec).map (fun p => (p.1, []))

/-- Append one item to the list held under a key. -/
def appendRes (res : CatRes) (k : PyStr) (it : RawItem) : CatRes :=
  res.map fun p => if p.1 == k then (p.1, p.2 ++ [it]) else p

/-- Replace the value held under a key. -/
def setRes (res : CatRes) (k : PyStr) (v : List RawItem) : CatRes :=
  res.map fun p => if p.1 == k then (p.1, v) else p

/-- Flush of an open item guarded by an active subcategory, as written in
the new-item branches: the Paper-of-the-Week arm of the source stores the
bare item dictionary over the list; it is unreachable (in RESEARCH those
branches only run with no open item) and is modelled as the one-item
list. -/
def flushSpecial (sec : PyStr) (curSub : Option PyStr) (curItem : Option RawItem)
    (res : CatRes) : CatRes :=
  match curItem, curSub with
  | some it, some c =>
    if sec == pys "RESEARCH" && c == pys "Paper of the Week" then setRes res c [it]
    else appendRes res c it
  | _, _ => res

/-- Plain guarded flush (research paper titles and the end of the loop). -/
def flushPlain (curSub : Option PyStr) (curItem : Option RawItem) (res : CatRes) : CatRes :=
  match curItem, curSub with
  | some it, some c => appendRes res c it
  | _, _ => res

/-- The notable-research header: move a pending item into Paper of the
Week when that subcategory is active. -/
def notableFlush (curSub : Option PyStr) (curItem : Option RawItem) (res : CatRes) :
    CatRes × Option RawItem :=
  match curItem, curSub with
  | some it, some c =>
    if c == pys "Paper of the Week" then (appendRes res c it, none) else (res, some it)
  | ci, _ => (res, ci)

/-- Index of the first occurrence of a double asterisk (str.find on the
tail of the line; the caller guards that one exists). -/
def idxOfBold : PyStr → Nat
  | [] => 0
  | c :: cs => if strStarts (c :: cs) (pys "**") then 0 else 1 + idxOfBold cs

/-- The three item-header shapes: a triple-hash heading, a fully
bold-wrapped line, or a bold lead followed by trailing text; returns the
raw title and trailing description. -/
def headerParse (line : PyStr) : Option (PyStr × PyStr) :=
  if strStarts line (pys "###") then some (pyStrip (line.drop 3), [])
  else if strStarts line (pys "**") && strEnds line (pys "**") then
    some (pyStrip ((line.drop 2).take (line.length - 4)), [])
  else if strStarts line (pys "**") && strHas (line.drop 2) (pys "**") then
    let k := idxOfBold (line.drop 2)
    some (pyStrip ((line.drop 2).take k), pyStrip ((line.drop 2).drop (k + 2)))
  else none

/-- The explicit subcategory-header scan: first fixed subcategory name
appearing case-insensitively in the line when the line is a markdown
heading or is underlined by more than five dashes. -/
def subcatScan (sec : PyStr) (line : PyStr) (rest : List PyStr) : Option PyStr :=
  ((subcategory_mapping sec).map (·.1)).find? fun k =>
    strHas (pyLower line) (pyLower k) &&
      (strStarts line (pys "###") || strStarts line (pys "##") || nextDashLong 5 rest)

/-- TECHNOLOGY noise filter for known non-subcategory sub-headers. -/
def techNoise (line : PyStr) : Bool :=
  (strStarts line (pys "###") || strStarts line (pys "##")) &&
    ([pys "New and Notable Models", pys "Datasets", pys "Models",
      pys "Developer Tools", pys "Spaces"].any
      fun h => strHas (pyLower line) (pyLower h))

/-- Standalone BUSINESS subcategory header names discarded silently. -/
def businessNames : List PyStr :=
  [pys "M&A", pys "Market Analysis", pys "Company Updates",
   pys "Funding & Investment", pys "Regulatory Developments", pys "Market Trends"]

/-- The while loop of parse_categorized_section.  Branches follow the
source order exactly: blank and delimiter skips, the RESEARCH block, the
subcategory scan with dash-skip, the BUSINESS redirects, the TECHNOLOGY
noise filter, title-with-dashes, item headers, standalone BUSINESS names,
bullets, and the content fallthrough.  Arms reached after a two-line
consume with an empty tail replicate the loop exit. -/
def catLoop (sec : PyStr) : List PyStr → Option PyStr → Option RawItem → CatRes → CatRes
  | [], curSub, curItem, res => flushPlain curSub curItem res
  | l :: rest, curSub, curItem, res =>
    let line := pyStrip l
    if line.isEmpty then catLoop sec rest curSub curItem res
    else if isDelim line then catLoop sec rest curSub curItem res
    else if sec == pys "RESEARCH" && strHas (pyLower line) (pys "paper of the day") then
      catLoop sec rest (some (pys "Paper of the Week")) curItem res
    else if sec == pys "RESEARCH" && strHas (pyLower line) (pys "notable research") then
      let pr := notableFlush curSub curItem res
      if nextDashAny rest then
        match rest with
        | _ :: rest2 => catLoop sec rest2 (some (pys "Notable Research")) pr.2 pr.1
        | [] => flushPlain (some (pys "Notable Research")) pr.2 pr.1
      else catLoop sec rest (some (pys "Notable Research")) pr.2 pr.1
    else if sec == pys "RESEARCH" && strStarts line (pys "[") &&
        strHas line (pys "](") && line.contains ')' then
      let res2 := flushPlain curSub curItem res
      let item2 : RawItem :=
        ⟨some (stripDateSuffix (subLinks line)), [], extract_link_from_text line⟩
      let sub2 := match curSub with
        | some c => some c
        | none => some (pys "Paper of the Week")
      catLoop sec rest sub2 (some item2) res2
    else if sec == pys "RESEARCH" &&
        (strStarts line (pys "**Authors:**") || strStarts line (pys "**Institution:**")) then
      match curItem with
      | some it => catLoop sec rest curSub (some (appendDesc it line)) res
      | none => catLoop sec rest curSub none res
    else if sec == pys "RESEARCH" && curItem.isSome then
      match curItem with
      | some it => catLoop sec rest curSub (some (appendDesc it line)) res
      | none => catLoop sec rest curSub none res
    else
      match subcatScan sec line rest with
      | some k =>
        if nextDashAny rest then
          match rest with
          | _ :: rest2 => catLoop sec rest2 (some k) curItem res
          | [] => flushPlain (some k) curItem res
        else catLoop sec rest (some k) curItem res
      | none =>
        if sec == pys "BUSINESS" &&
            (strHas (pyLower line) (pys "market analysis") ||
              strHas (pyLower line) (pys "analysis")) &&
            nextDashAny rest then
          match rest with
          | _ :: rest2 => catLoop sec rest2 (some (pys "Market Trends")) curItem res
          | [] => flushPlain (some (pys "Market Trends")) curItem res
        else if sec == pys "BUSINESS" &&
            (strHas (pyLower line) (pys "m&a") || strHas (pyLower line) (pys "mergers") ||
              strHas (pyLower line) (pys "partnerships")) &&
            nextDashAny rest then
          match rest with
          | _ :: rest2 => catLoop sec rest2 (some (pys "Company Updates")) curItem res
          | [] => flushPlain (some (pys "Company Updates")) curItem res
        else if sec == pys "TECHNOLOGY" && techNoise line then
          catLoop sec rest curSub curItem res
        else if (sec == pys "BUSINESS" || sec == pys "PRODUCTS") && nextDashLong 10 rest then
          let res2 := flushSpecial sec curSub curItem res
          let sub2 := match curSub with
            | some c => some c
            | none => some (detect_subcategory line sec)
          match rest with
          | _ :: rest2 => catLoop sec rest2 sub2 (some ⟨some line, [], none⟩) res2
          | [] => flushPlain sub2 (some ⟨some line, [], none⟩) res2
        else
          match headerParse line with
          | some td =>
            let res2 := flushSpecial sec curSub curItem res
            let ref := extract_link_from_text (td.1 ++ ' ' :: td.2)
            let item2 : RawItem := ⟨some (subLinks td.1), subLinks td.2, ref⟩
            let sub2 := match curSub with
              | some c => some c
              | none => some (detect_subcategory (td.1 ++ ' ' :: line) sec)
            catLoop sec rest sub2 (some item2) res2
          | none =>
            if sec == pys "BUSINESS" && businessNames.contains line then
              catLoop sec rest curSub curItem res
            else if strStarts line (pys "•") || strStarts line (pys "*") then
              if sec == pys "BUSINESS" && curItem.isSome then
                match curItem with
                | some it =>
                  let d := pyStrip (line.drop 1)
                  catLoop sec rest curSub (some (withLink (appendDesc it d) d)) res
                | none => catLoop sec rest curSub none res
              else
                let res2 := flushSpecial sec curSub curItem res
                let d := pyStrip (line.drop 1)
                let item2 : RawItem := ⟨none, subLinks d, extract_link_from_text d⟩
                let sub2 := match curSub with
                  | some c => some c
                  | none => some (detect_subcategory d sec)
                catLoop sec rest sub2 (some item2) res2
            else
              match curItem with
              | some it =>
                if !line.isEmpty && !strStarts line (pys "[") then
                  catLoop sec rest curSub (some (withLink (appendDesc it line) line)) res
                else catLoop sec rest curSub (some it) res
              | none => catLoop sec rest curSub none res

/-- parse_categorized_section: run the loop on the split content from the
seeded result dictionary, then clean each subcategory list (the
validation pass of the source only prints warnings). -/
def parse_categorized_section (content : PyStr) (sec : PyStr) : List (PyStr × List Item) :=
  (catLoop sec (splitNl content) none none (initRes sec)).map fun p => (p.1, clean_items p.2)

/-- Association lookup in a result dictionary. -/
def assocGet (m : List (PyStr × α)) (k : PyStr) : Option α :=
  (m.find? (fun p => p.1 == k)).map (·.2)

/-- C2 counterexample: for the BUSINESS section of Scenario B the
Company Updates list is empty, so the single parsed item is not placed
there as the claim asserts. -/
theorem C2_company_updates_counterexample :
    assocGet (parse_categorized_section
        (pys "Funding Update\n------------\nSee [here](https://x.com)") (pys "BUSINESS"))
      (pys "Company Updates") = some [] := by decide

/-- C2 amended: the Scenario B section parses to exactly one item with
the extracted reference link, but the keyword funding of the
Funding and Investment table matches the title, so the item is placed
under Funding and Investment, not under the Company Updates default. -/
theorem C2_scenario_b :
    parse_categorized_section
        (pys "Funding Update\n------------\nSee [here](https://x.com)") (pys "BUSINESS") =
      [(pys "Funding & Investment",
        [⟨some (pys "Funding Update"), pys "See here", some (pys "https://x.com")⟩]),
       (pys "Company Updates", []),
       (pys "Regulatory Developments", []),
       (pys "Market Trends", [])] ∧
    detect_subcategory (pys "Funding Update") (pys "BUSINESS") =
      pys "Funding & Investment" := by
  exact ⟨by decide, by decide⟩

theorem strStarts_cons {s : PyStr} {c : Char} {p : PyStr}
    (h : strStarts s (c :: p) = true) : ∃ t, s = c :: t ∧ strStarts t p = true := by
  cases s with
  | nil => simp [strStarts] at h
  | cons a as =>
    simp only [strStarts, Bool.and_eq_true, beq_iff_eq] at h
    exact ⟨as, by rw [h.1], h.2⟩

theorem strStarts_two {s : PyStr} {c1 c2 : Char} {p : PyStr}
    (h : strStarts s (c1 :: c2 :: p) = true) : strStarts s [c1, c2] = true := by
  obtain ⟨t, rfl, h2⟩ := strStarts_cons h
  obtain ⟨u, rfl, _⟩ := strStarts_cons h2
  simp [strStarts]

theorem nextDashLong_false {rest : List PyStr} (n : Nat)
    (h : nextDashAny rest = false) : nextDashLong n rest = false := by
  cases rest with
  | nil => rfl
  | cons l2 t =>
    simp only [nextDashAny] at h
    simp [nextDashLong, h]

/-- C6 counterexample: a bullet line in a BUSINESS section with no open
item does start a new description-only item (placed by the keyword
default), contradicting the claim that BUSINESS bullets never start a
new item. -/
theorem C6_business_bullet_counterexample :
    assocGet (parse_categorized_section (pys "• Foo bar") (pys "BUSINESS"))
      (pys "Company Updates") = some [⟨none, pys "Foo bar", none⟩] := by decide

/-- C6 amended: for a bullet line that matches no earlier branch, a
BUSINESS bullet extends the open item when one exists and otherwise
starts a new description-only item; a TECHNOLOGY bullet always finalizes
and starts a new item; a RESEARCH bullet extends the open item when one
exists (the whole line, marker included, via the content branch) and only
starts a new item when none is open.  Auto-assignment via the keyword
classifier happens whenever no subcategory is set. -/
theorem C6_bullet_behavior (l : PyStr) (rest : List PyStr) (curSub : Option PyStr)
    (res : CatRes)
    (hbul : strStarts (pyStrip l) (pys "•") = true ∨ strStarts (pyStrip l) (pys "*") = true)
    (hnb : strStarts (pyStrip l) (pys "**") = false)
    (hdel : isDelim (pyStrip l) = false)
    (hnd : nextDashAny rest = false)
    (hpotd : strHas (pyLower (pyStrip l)) (pys "paper of the day") = false)
    (hnr : strHas (pyLower (pyStrip l)) (pys "notable research") = false)
    (hscanB : subcatScan (pys "BUSINESS") (pyStrip l) rest = none)
    (hscanT : subcatScan (pys "TECHNOLOGY") (pyStrip l) rest = none)
    (hscanR : subcatScan (pys "RESEARCH") (pyStrip l) rest = none)
    (hnames : businessNames.contains (pyStrip l) = false) :
    (∀ it res0, catLoop (pys "BUSINESS") (l :: rest) curSub (some it) res0 =
      catLoop (pys "BUSINESS") rest curSub
        (some (withLink (appendDesc it (pyStrip ((pyStrip l).drop 1)))
          (pyStrip ((pyStrip l).drop 1)))) res0) ∧
    (catLoop (pys "BUSINESS") (l :: rest) curSub none res =
      catLoop (pys "BUSINESS") rest
        (match curSub with
         | some c => some c
         | none => some (detect_subcategory (pyStrip ((pyStrip l).drop 1)) (pys "BUSINESS")))
        (some ⟨none, subLinks (pyStrip ((pyStrip l).drop 1)),
          extract_link_from_text (pyStrip ((pyStrip l).drop 1))⟩) res) ∧
    (∀ curItem, catLoop (pys "TECHNOLOGY") (l :: rest) curSub curItem res =
      catLoop (pys "TECHNOLOGY") rest
        (match curSub with
         | some c => some c
         | none => some (detect_subcategory (pyStrip ((pyStrip l).drop 1)) (pys "TECHNOLOGY")))
        (some ⟨none, subLinks (pyStrip ((pyStrip l).drop 1)),
          extract_link_from_text (pyStrip ((pyStrip l).drop 1))⟩)
        (flushSpecial (pys "TECHNOLOGY") curSub curItem res)) ∧
    (∀ it, catLoop (pys "RESEARCH") (l :: rest) curSub (some it) res =
      catLoop (pys "RESEARCH") rest curSub (some (appendDesc it (pyStrip l))) res) ∧
    (catLoop (pys "RESEARCH") (l :: rest) curSub none res =
      catLoop (pys "RESEARCH") rest
        (match curSub with
         | some c => some c
         | none => some (detect_subcategory (pyStrip ((pyStrip l).drop 1)) (pys "RESEARCH")))
        (some ⟨none, subLinks (pyStrip ((pyStrip l).drop 1)),
          extract_link_from_text (pyStrip ((pyStrip l).drop 1))⟩) res) := by
  have hempty : (pyStrip l).isEmpty = false := by
    rcases hbul with h | h <;> (obtain ⟨t, ht, -⟩ := strStarts_cons h; rw [ht]; rfl)
  have hhash : strStarts (pyStrip l) (pys "###") = false := by
    rcases hbul with h | h <;>
      (obtain ⟨t, ht, -⟩ := strStarts_cons h; rw [ht]; simp [strStarts, pys])
  have hhash2 : strStarts (pyStrip l) (pys "##") = false := by
    rcases hbul with h | h <;>
      (obtain ⟨t, ht, -⟩ := strStarts_cons h; rw [ht]; simp [strStarts, pys])
  have hlb : strStarts (pyStrip l) (pys "[") = false := by
    rcases hbul with h | h <;>
      (obtain ⟨t, ht, -⟩ := strStarts_cons h; rw [ht]; simp [strStarts, pys])
  have hauth : strStarts (pyStrip l) (pys "**Authors:**") = false := by
    cases hA : strStarts (pyStrip l) (pys "**Authors:**") with
    | false => rfl
    | true =>
      have e : pys "**Authors:**" = '*' :: '*' :: pys "Authors:**" := rfl
      rw [e] at hA
      have h2 := strStarts_two hA
      have e2 : (['*', '*'] : PyStr) = pys "**" := rfl
      rw [e2] at h2
      rw [hnb] at h2
      simp at h2
  have hinst : strStarts (pyStrip l) (pys "**Institution:**") = false := by
    cases hA : strStarts (pyStrip l) (pys "**Institution:**") with
    | false => rfl
    | true =>
      have e : pys "**Institution:**" = '*' :: '*' :: pys "Institution:**" := rfl
      rw [e] at hA
      have h2 := strStarts_two hA
      have e2 : (['*', '*'] : PyStr) = pys "**" := rfl
      rw [e2] at h2
      rw [hnb] at h2
      simp at h2
  have htn : techNoise (pyStrip l) = false := by
    simp [techNoise, hhash, hhash2]
  have hnd10 := nextDashLong_false 10 hnd
  have hhp : headerParse (pyStrip l) = none := by
    simp [headerParse, hhash, hnb]
  have hBR : ¬(pys "BUSINESS" = pys "RESEARCH") := by decide
  have hBT : ¬(pys "BUSINESS" = pys "TECHNOLOGY") := by decide
  have hTB : ¬(pys "TECHNOLOGY" = pys "BUSINESS") := by decide
  have hTR : ¬(pys "TECHNOLOGY" = pys "RESEARCH") := by decide
  have hTP : ¬(pys "TECHNOLOGY" = pys "PRODUCTS") := by decide
  have hRB : ¬(pys "RESEARCH" = pys "BUSINESS") := by decide
  have hRT : ¬(pys "RESEARCH" = pys "TECHNOLOGY") := by decide
  have hRP : ¬(pys "RESEARCH" = pys "PRODUCTS") := by decide
  refine ⟨?_, ?_, ?_, ?_, ?_⟩
  · intro it res0
    conv_lhs => rw [catLoop.eq_def]
    simp only [hempty, hdel, hnd, hnd10, hscanB, hnames, hhp, Bool.false_and, Bool.and_false,
      Bool.true_and, Bool.and_true, Bool.false_or, Bool.or_false, if_false, Bool.false_eq_true,
      Option.isSome_some, Bool.and_self]
    rcases hbul with h | h <;> simp [h, hBR, hBT]
  · conv_lhs => rw [catLoop.eq_def]
    simp only [hempty, hdel, hnd, hnd10, hscanB, hnames, hhp, Bool.false_and, Bool.and_false,
      Bool.true_and, Bool.and_true, Bool.false_or, Bool.or_false, if_false, Bool.false_eq_true,
      Option.isSome_none, Bool.and_self]
    rcases hbul with h | h <;> simp [h, hBR, hBT, flushSpecial]
  · intro curItem
    conv_lhs => rw [catLoop.eq_def]
    simp only [hempty, hdel, hnd, hnd10, hscanT, htn, hhp, Bool.false_and, Bool.and_false,
      Bool.true_and, Bool.and_true, Bool.false_or, Bool.or_false, if_false, Bool.false_eq_true]
    rcases hbul with h | h <;> simp [h, hTB, hTR, hTP]
  · intro it
    conv_lhs => rw [catLoop.eq_def]
    simp only [hempty, hdel, hpotd, hnr, hlb, hauth, hinst, Bool.false_and, Bool.and_false,
      Bool.true_and, Bool.and_true, Bool.false_or, Bool.or_false, if_false, Bool.false_eq_true,
      Option.isSome_some, Bool.and_self]
    simp
  · conv_lhs => rw [catLoop.eq_def]
    simp only [hempty, hdel, hpotd, hnr, hlb, hauth, hinst, hscanR, hhp, Bool.false_and,
      Bool.and_false, Bool.true_and, Bool.and_true, Bool.false_or, Bool.or_false, if_false,
      Bool.false_eq_true, Option.isSome_none, Bool.and_self]
    rcases hbul with h | h <;> simp [h, hRB, hRT, hRP, hnd10, flushSpecial]

/-- Witness for C6_bullet_behavior at the concrete bullet line
followed by nothing, with an open item for the extend cases. -/
theorem C6_bullet_behavior_witness :
    (catLoop (pys "BUSINESS") [pys "• Demo item"] none
        (some ⟨none, pys "x", none⟩) [] =
      catLoop (pys "BUSINESS") [] none
        (some (withLink (appendDesc ⟨none, pys "x", none⟩
            (pyStrip ((pyStrip (pys "• Demo item")).drop 1)))
          (pyStrip ((pyStrip (pys "• Demo item")).drop 1)))) []) ∧
    (catLoop (pys "BUSINESS") [pys "• Demo item"] none none [] =
      catLoop (pys "BUSINESS") []
        (some (detect_subcategory (pyStrip ((pyStrip (pys "• Demo item")).drop 1))
          (pys "BUSINESS")))
        (some ⟨none, subLinks (pyStrip ((pyStrip (pys "• Demo item")).drop 1)),
          extract_link_from_text (pyStrip ((pyStrip (pys "• Demo item")).drop 1))⟩) []) ∧
    (catLoop (pys "TECHNOLOGY") [pys "• Demo item"] none none [] =
      catLoop (pys "TECHNOLOGY") []
        (some (detect_subcategory (pyStrip ((pyStrip (pys "• Demo item")).drop 1))
          (pys "TECHNOLOGY")))
        (some ⟨none, subLinks (pyStrip ((pyStrip (pys "• Demo item")).drop 1)),
          extract_link_from_text (pyStrip ((pyStrip (pys "• Demo item")).drop 1))⟩)
        (flushSpecial (pys "TECHNOLOGY") none none [])) ∧
    (catLoop (pys "RESEARCH") [pys "• Demo item"] none
        (some ⟨none, pys "x", none⟩) [] =
      catLoop (pys "RESEARCH") [] none
        (some (appendDesc ⟨none, pys "x", none⟩ (pyStrip (pys "• Demo item")))) []) ∧
    (catLoop (pys "RESEARCH") [pys "• Demo item"] none none [] =
      catLoop (pys "RESEARCH") []
        (some (detect_subcategory (pyStrip ((pyStrip (pys "• Demo item")).drop 1))
          (pys "RESEARCH")))
        (some ⟨none, subLinks (pyStrip ((pyStrip (pys "• Demo item")).drop 1)),
          extract_link_from_text (pyStrip ((pyStrip (pys "• Demo item")).drop 1))⟩) []) := by
  have h := C6_bullet_behavior (pys "• Demo item") [] none []
    (Or.inl (by decide)) (by decide) (by decide) (by decide) (by decide) (by decide)
    (by decide) (by decide) (by decide) (by decide)
  exact ⟨h.1 ⟨none, pys "x", none⟩ [], h.2.1, h.2.2.1 none, h.2.2.2.1 ⟨none, pys "x", none⟩,
    h.2.2.2.2⟩

/-- C7 counterexample: a plain bold-wrapped line immediately after a
fresh title is not swallowed; it becomes the item description, because
the source only suppresses lines that start with a bold bracket. -/
theorem C7_bold_echo_counterexample :
    parse_simple_section (pys "T\n-----------\n**Echo**") (pys "PRODUCTS") =
      [⟨some (pys "T"), pys "**Echo**", none⟩] := by decide


/-- One-step unfolding of simpleLoop on a cons cell (definitional). -/
theorem simpleLoop_cons (sec l : PyStr) (rest : List PyStr) (curItem : Option RawItem)
    (justCreated : Bool) (items : List RawItem) :
    simpleLoop sec (l :: rest) curItem justCreated items =
      (let line := pyStrip l
       if line.isEmpty then simpleLoop sec rest curItem justCreated items
       else if isDelim line then simpleLoop sec rest curItem justCreated items
       else if sec == pys "PRODUCTS" then
         if nextDashLong 10 rest then
           let items2 :=
             (match curItem with
              | some it => items ++ [it]
              | none => items)
           match rest with
           | _l2 :: rest2 => simpleLoop sec rest2 (some ⟨some line, [], none⟩) true items2
           | [] => items2 ++ [⟨some line, [], none⟩]
         else if justCreated && strStarts line (pys "**[") && strEnds line (pys "**") then
           simpleLoop sec rest curItem false items
         else
           let jc := if justCreated && !strStarts line (pys "**[") then false else justCreated
           match curItem with
           | some it => simpleLoop sec rest (some (withLink (appendDesc it line) line)) jc items
           | none => simpleLoop sec rest none jc items
       else
         if !line.isEmpty && !strStarts line (pys "#") then
           if strStarts line (pys "•") then
             let description := pyStrip (line.drop 1)
             if description.isEmpty then simpleLoop sec rest curItem justCreated items
             else simpleLoop sec rest curItem justCreated
               (items ++ [⟨none, description, extract_link_from_text description⟩])
           else
             simpleLoop sec rest curItem justCreated
               (items ++ [⟨none, line, extract_link_from_text line⟩])
         else simpleLoop sec rest curItem justCreated items) := by
  cases rest <;> cases curItem <;> rfl

set_option maxHeartbeats 2000000

/-- C7 amended: in PRODUCTS, exactly one line that starts with a bold
bracket and ends bold, seen while the suppression flag is up, is
swallowed and drops the flag; with the flag down the same line is
ordinary content; and the flag is reset by any non-empty, non-delimiter
line not starting with a bold bracket (blank and delimiter lines keep
the suppression in place, as do bold-bracket lines). -/
theorem C7_bold_echo_behavior (b x : PyStr) (rest : List PyStr)
    (h1 : strStarts (pyStrip b) (pys "**[") = true)
    (h2 : strEnds (pyStrip b) (pys "**") = true)
    (hnd : nextDashLong 10 rest = false)
    (hx1 : (pyStrip x).isEmpty = false)
    (hx2 : isDelim (pyStrip x) = false)
    (hx3 : strStarts (pyStrip x) (pys "**[") = false) :
    (∀ curItem items, simpleLoop (pys "PRODUCTS") (b :: rest) curItem true items =
      simpleLoop (pys "PRODUCTS") rest curItem false items) ∧
    (∀ curItem items, simpleLoop (pys "PRODUCTS") (b :: rest) curItem false items =
      simpleLoop (pys "PRODUCTS") rest
        (curItem.map fun i => withLink (appendDesc i (pyStrip b)) (pyStrip b)) false items) ∧
    (∀ curItem items, simpleLoop (pys "PRODUCTS") (x :: rest) curItem true items =
      simpleLoop (pys "PRODUCTS") (x :: rest) curItem false items) := by
  obtain ⟨t1, hsh, hr1⟩ := strStarts_cons h1
  obtain ⟨t2, hsh2, hr2⟩ := strStarts_cons hr1
  obtain ⟨t3, hsh3, -⟩ := strStarts_cons hr2
  subst hsh3; subst hsh2
  have hbe : pyStrip b = '*' :: '*' :: '[' :: t3 := hsh
  have hempty : (pyStrip b).isEmpty = false := by rw [hbe]; rfl
  have hdel : isDelim (pyStrip b) = false := by
    rw [hbe]; simp [isDelim, pys]
  refine ⟨?_, ?_, ?_⟩
  · intro curItem items
    conv_lhs => rw [simpleLoop_cons]
    simp [hempty, hdel, hnd, h1, h2]
  · intro curItem items
    conv_lhs => rw [simpleLoop_cons]
    cases curItem <;> simp [hempty, hdel, hnd, h1, h2]
  · intro curItem items
    by_cases hd : nextDashLong 10 rest = true
    · conv_lhs => rw [simpleLoop_cons]
      conv_rhs => rw [simpleLoop_cons]
      simp [hx1, hx2, hx3, hd]
    · have hd' : nextDashLong 10 rest = false := by simpa using hd
      conv_lhs => rw [simpleLoop_cons]
      conv_rhs => rw [simpleLoop_cons]
      cases curItem <;> simp [hx1, hx2, hx3, hd']

/-- Witness for C7_bold_echo_behavior at a concrete bold bracket line
and a concrete resetting line. -/
theorem C7_bold_echo_behavior_witness :
    (simpleLoop (pys "PRODUCTS") [pys "**[E](u)**"] (some ⟨none, pys "x", none⟩) true [] =
      simpleLoop (pys "PRODUCTS") [] (some ⟨none, pys "x", none⟩) false []) ∧
    (simpleLoop (pys "PRODUCTS") [pys "**[E](u)**"] (some ⟨none, pys "x", none⟩) false [] =
      simpleLoop (pys "PRODUCTS") []
        ((some ⟨none, pys "x", none⟩).map fun i =>
          withLink (appendDesc i (pyStrip (pys "**[E](u)**"))) (pyStrip (pys "**[E](u)**")))
        false []) ∧
    (simpleLoop (pys "PRODUCTS") [pys "other"] (some ⟨none, pys "x", none⟩) true [] =
      simpleLoop (pys "PRODUCTS") [pys "other"] (some ⟨none, pys "x", none⟩) false []) := by
  have h := C7_bold_echo_behavior (pys "**[E](u)**") (pys "other") []
    (by decide) (by decide) (by decide) (by decide) (by decide) (by decide)
  exact ⟨h.1 (some ⟨none, pys "x", none⟩) [], h.2.1 (some ⟨none, pys "x", none⟩) [],
    h.2.2 (some ⟨none, pys "x", none⟩) []⟩

/-- The five canonical section names, in source dictionary order. -/
def sectionNamesList : List PyStr :=
  [pys "HIGHLIGHTS", pys "BUSINESS", pys "PRODUCTS", pys "TECHNOLOGY", pys "RESEARCH"]

/-- Loop state of parse_markdown_file: the sections dictionary, the open
section, its accumulated raw lines, and the decoration-skip flag. -/
structure SplitState where
  sections : List (PyStr × PyStr)
  cur : Option PyStr
  buf : List PyStr
  skipDashes : Bool
deriving Repr

/-- Dictionary store sections[k] = v. -/
def setSection (m : List (PyStr × PyStr)) (k : PyStr) (v : PyStr) : List (PyStr × PyStr) :=
  m.map fun p => if p.1 == k then (p.1, v) else p

/-- Python newline join. -/
def joinNl : List PyStr → PyStr
  | [] => []
  | [l] => l
  | l :: ls => l ++ '\n' :: joinNl ls

/-- Save the open section: sections[cur] = joined-and-stripped buffer. -/
def flushCur (st : SplitState) : List (PyStr × PyStr) :=
  match st.cur with
  | some c => setSection st.sections c (pyStrip (joinNl st.buf))
  | none => st.sections

/-- Initial splitter state: every section mapped to the empty string. -/
def initSplit : SplitState :=
  ⟨sectionNamesList.map (fun n => (n, [])), none, [], false⟩

/-- The line loop of parse_markdown_file, in source branch order: section
header (flush, reopen, arm dash skip), armed dash decoration, the star
separator (kept verbatim, flag untouched), the terminal marker (flush and
stop, state kept for the final save), content, and the no-section
fallthrough. -/
def splitLoop : List PyStr → SplitState → SplitState
  | [], st => st
  | l :: rest, st =>
    if sectionNamesList.contains (pyStrip l) then
      splitLoop rest ⟨flushCur st, some (pyStrip l), [], true⟩
    else if st.skipDashes && !(pyStrip l).isEmpty && (pyStrip l).all (· == '-') then
      splitLoop rest { st with skipDashes := false }
    else if pyStrip l == pys "* * *" then
      splitLoop rest (if st.cur.isSome then { st with buf := st.buf ++ [l] } else st)
    else if strStarts (pyStrip l) (pys "LOOKING AHEAD") then
      ⟨flushCur st, st.cur, st.buf, st.skipDashes⟩
    else
      match st.cur with
      | some _ => splitLoop rest { st with buf := st.buf ++ [l], skipDashes := false }
      | none => splitLoop rest { st with skipDashes := false }

/-- Sections of one document: run the loop and apply the final save (the
save inside the terminal-marker branch stores the same value, so the
unconditional final flush is idempotent there). -/
def parse_markdown_sections (content : PyStr) : List (PyStr × PyStr) :=
  flushCur (splitLoop (splitNl content) initSplit)

/-- parse_markdown_file without the title field, which the source only
prints in its summary. -/
structure ParsedFile where
  sections : List (PyStr × PyStr)
  filename : PyStr
deriving Repr

def parse_markdown_file (filename content : PyStr) : ParsedFile :=
  ⟨parse_markdown_sections content, filename⟩

/-- Key skeleton of a sections dictionary. -/
def keysOk (m : List (PyStr × PyStr)) : Prop := m.map Prod.fst = sectionNamesList

theorem setSection_keys (m : List (PyStr × PyStr)) (k : PyStr) (v : PyStr) :
    (setSection m k v).map Prod.fst = m.map Prod.fst := by
  unfold setSection
  induction m with
  | nil => rfl
  | cons p t ih =>
    simp only [List.map_cons, ih]
    by_cases h : (p.1 == k) = true <;> simp [h]

theorem assocGet_setSection_self (m : List (PyStr × PyStr)) (name : PyStr) (v : PyStr)
    (h : name ∈ m.map Prod.fst) : assocGet (setSection m name v) name = some v := by
  induction m with
  | nil => simp at h
  | cons p t ih =>
    simp only [List.map_cons, List.mem_cons] at h
    by_cases hp : (p.1 == name) = true
    · simp [assocGet, setSection, List.find?, hp]
    · rcases h with h | h
      · exfalso; apply hp; simp [h]
      · simpa [assocGet, setSection, List.find?, hp] using ih h

theorem assocGet_setSection_ne (m : List (PyStr × PyStr)) (k name : PyStr) (v : PyStr)
    (h : k ≠ name) : assocGet (setSection m k v) name = assocGet m name := by
  induction m with
  | nil => rfl
  | cons p t ih =>
    by_cases hp : (p.1 == k) = true
    · have hp' : p.1 = k := by simpa using hp
      have hpn : (p.1 == name) = false := by
        simp only [beq_eq_false_iff_ne]
        rw [hp']; exact h
      simp [assocGet, setSection, List.find?, hp, hpn] at *
      exact ih
    · by_cases hn : (p.1 == name) = true
      · simp [assocGet, setSection, List.find?, hp, hn]
      · simp [assocGet, setSection, List.find?, hp, hn] at *
        exact ih

theorem flushCur_keys (st : SplitState) (h : keysOk st.sections) : keysOk (flushCur st) := by
  unfold flushCur
  cases st.cur with
  | none => exact h
  | some c => unfold keysOk at *; rw [setSection_keys]; exact h

theorem flushCur_name_agree (st1 st2 : SplitState) (name : PyStr)
    (hn : name ∈ sectionNamesList)
    (hc : st1.cur = st2.cur) (hb : st1.buf = st2.buf)
    (hk1 : keysOk st1.sections) (hk2 : keysOk st2.sections)
    (hd : st1.cur = some name ∨ assocGet st1.sections name = assocGet st2.sections name) :
    assocGet (flushCur st1) name = assocGet (flushCur st2) name := by
  unfold flushCur
  rw [← hc]
  cases hcur : st1.cur with
  | none =>
    rcases hd with hd | hd
    · rw [hcur] at hd; cases hd
    · exact hd
  | some c =>
    rw [hb]
    by_cases hcn : c = name
    · subst hcn
      rw [assocGet_setSection_self _ _ _ (by rw [hk1]; exact hn),
        assocGet_setSection_self _ _ _ (by rw [hk2]; exact hn)]
    · rw [assocGet_setSection_ne _ _ _ _ hcn, assocGet_setSection_ne _ _ _ _ hcn]
      rcases hd with hd | hd
      · rw [hcur] at hd
        exact absurd (Option.some.inj hd) hcn
      · exact hd

theorem splitLoop_keys (ls : List PyStr) (st : SplitState) (h : keysOk st.sections) :
    keysOk (splitLoop ls st).sections := by
  induction ls generalizing st with
  | nil => exact h
  | cons l t ih =>
    rw [splitLoop]
    split_ifs <;>
      first
        | exact ih _ (flushCur_keys st h)
        | exact ih _ h
        | exact flushCur_keys st h
        | (cases hcur : st.cur <;> exact ih _ h)

theorem splitLoop_append (xs ys : List PyStr) (st : SplitState)
    (hx : ∀ l ∈ xs, strStarts (pyStrip l) (pys "LOOKING AHEAD") = false) :
    splitLoop (xs ++ ys) st = splitLoop ys (splitLoop xs st) := by
  induction xs generalizing st with
  | nil => rfl
  | cons l t ih =>
    have hl := hx l (by simp)
    have ht : ∀ m ∈ t, strStarts (pyStrip m) (pys "LOOKING AHEAD") = false :=
      fun m hm => hx m (by simp [hm])
    rw [List.cons_append, splitLoop, splitLoop]
    split_ifs <;>
      first
        | exact ih _
        | exact ih _ ht
        | (cases hcur : st.cur <;> first | exact ih _ | exact ih _ ht)
        | (exfalso; simp_all)

theorem splitLoop_name_agree (name : PyStr) (hn : name ∈ sectionNamesList) :
    ∀ ls : List PyStr, (∀ l ∈ ls, pyStrip l ≠ name) →
    ∀ st1 st2 : SplitState,
      st1.cur = st2.cur → st1.buf = st2.buf → st1.skipDashes = st2.skipDashes →
      keysOk st1.sections → keysOk st2.sections →
      (st1.cur = some name ∨ assocGet st1.sections name = assocGet st2.sections name) →
      assocGet (flushCur (splitLoop ls st1)) name =
        assocGet (flushCur (splitLoop ls st2)) name := by
  intro ls
  induction ls with
  | nil =>
    intro _ st1 st2 hc hb _ hk1 hk2 hd
    exact flushCur_name_agree st1 st2 name hn hc hb hk1 hk2 hd
  | cons l t ih =>
    intro hsuf st1 st2 hc hb hs hk1 hk2 hd
    have hl : pyStrip l ≠ name := hsuf l (by simp)
    have ht : ∀ m ∈ t, pyStrip m ≠ name := fun m hm => hsuf m (by simp [hm])
    obtain ⟨m1, c0, b0, k0⟩ := st1
    obtain ⟨m2, c2x, b2x, k2x⟩ := st2
    simp only at hc hb hs hk1 hk2 hd
    subst hc; subst hb; subst hs
    have hflush : assocGet (flushCur ⟨m1, c0, b0, k0⟩) name =
        assocGet (flushCur ⟨m2, c0, b0, k0⟩) name :=
      flushCur_name_agree _ _ name hn rfl rfl hk1 hk2 hd
    rw [splitLoop, splitLoop]
    split_ifs with h1 h2 h3 h4 h5
    · exact ih ht _ _ rfl rfl rfl
        (flushCur_keys _ hk1) (flushCur_keys _ hk2) (Or.inr hflush)
    · exact ih ht _ _ rfl rfl rfl hk1 hk2 hd
    · exact ih ht _ _ rfl rfl rfl hk1 hk2 hd
    · exact ih ht _ _ rfl rfl rfl hk1 hk2 hd
    · exact flushCur_name_agree _ _ name hn rfl rfl
        (flushCur_keys _ hk1) (flushCur_keys _ hk2) (Or.inr hflush)
    · cases c0 with
      | some c => exact ih ht _ _ rfl rfl rfl hk1 hk2 hd
      | none => exact ih ht _ _ rfl rfl rfl hk1 hk2 hd

/-- C10 confirmed: when a section header recurs, the SectionSplitter
discards everything accumulated for earlier occurrences of that name;
the returned text for the name is exactly what a fresh run on the last
occurrence and what follows it would produce (the prefix may contain any
lines, including earlier occurrences of the same header, as long as it
does not hit the terminal marker, and the suffix contains no further
occurrence). -/
theorem C10_last_header_wins (pre suf : List PyStr) (h name : PyStr)
    (hn : name ∈ sectionNamesList) (hh : pyStrip h = name)
    (hpre : ∀ l ∈ pre, strStarts (pyStrip l) (pys "LOOKING AHEAD") = false)
    (hsuf : ∀ l ∈ suf, pyStrip l ≠ name) :
    assocGet (flushCur (splitLoop (pre ++ h :: suf) initSplit)) name =
      assocGet (flushCur (splitLoop (h :: suf) initSplit)) name := by
  rw [splitLoop_append pre (h :: suf) initSplit hpre]
  have hk0 : keysOk initSplit.sections := by unfold keysOk; decide
  have hkp : keysOk (splitLoop pre initSplit).sections :=
    splitLoop_keys pre initSplit hk0
  have hcontains : sectionNamesList.contains (pyStrip h) = true := by
    rw [hh]; exact List.elem_eq_true_of_mem hn
  rw [splitLoop, splitLoop]
  simp only [hcontains, if_true]
  exact splitLoop_name_agree name hn suf hsuf _ _ rfl rfl rfl
    (flushCur_keys _ hkp) (flushCur_keys initSplit hk0) (Or.inl (by simp [hh]))

/-- Witness for C10_last_header_wins: a HIGHLIGHTS header repeated after
unrelated content keeps only the content after the last occurrence. -/
theorem C10_last_header_wins_witness :
    assocGet (flushCur (splitLoop ([pys "HIGHLIGHTS", pys "first content"] ++
        pys "HIGHLIGHTS" :: [pys "second content"]) initSplit)) (pys "HIGHLIGHTS") =
      assocGet (flushCur (splitLoop (pys "HIGHLIGHTS" :: [pys "second content"]) initSplit))
        (pys "HIGHLIGHTS") :=
  C10_last_header_wins [pys "HIGHLIGHTS", pys "first content"] [pys "second content"]
    (pys "HIGHLIGHTS") (pys "HIGHLIGHTS") (by decide) (by decide) (by decide) (by decide)

/-- The JSON value held under one top-level section key. -/
inductive SecData where
  | simple (items : List Item)
  | cat (subs : List (PyStr × List Item))
deriving DecidableEq, Repr

/-- The final merged structure. -/
abbrev Output := List (PyStr × SecData)

/-- parse_section_items: dispatch on the section kind; unknown names fall
back to the simple parser. -/
def parse_section_items (content : PyStr) (sec : PyStr) : SecData :=
  if sec == pys "HIGHLIGHTS" || sec == pys "PRODUCTS" then
    .simple (parse_simple_section content sec)
  else if sec == pys "BUSINESS" || sec == pys "TECHNOLOGY" || sec == pys "RESEARCH" then
    .cat (parse_categorized_section content sec)
  else .simple (parse_simple_section content sec)

/-- The seeded output structure of merge_files_to_json. -/
def initJson : Output :=
  [(pys "HIGHLIGHTS", .simple []),
   (pys "BUSINESS", .cat
     [(pys "Funding & Investment", []), (pys "Company Updates", []),
      (pys "Regulatory Developments", []), (pys "Market Trends", [])]),
   (pys "PRODUCTS", .simple []),
   (pys "TECHNOLOGY", .cat
     [(pys "Open Source Projects", []), (pys "Models & Datasets", []),
      (pys "Developer Tools & Demos", [])]),
   (pys "RESEARCH", .cat
     [(pys "Paper of the Week", []), (pys "Notable Research", [])])]

/-- json_data[section].extend(items) for a simple section value. -/
def extendSimpleVal (sd : SecData) (items : List Item) : SecData :=
  match sd with
  | .simple l => .simple (l ++ items)
  | .cat m => .cat m

/-- json_data[section][sub].extend(items) for a categorized value. -/
def extendCatValOne (sd : SecData) (sub : PyStr) (items : List Item) : SecData :=
  match sd with
  | .cat m => .cat (m.map fun q => if q.1 == sub then (q.1, q.2 ++ items) else q)
  | .simple l => .simple l

/-- One inner iteration of the merge: fold the parsed section of one file
into the output, skipping empty section texts.  The isinstance guards of
the source always succeed because parse_section_items dispatches by the
same section lists; the per-subcategory list check always succeeds since
subcategory values are lists. -/
def mergeOne (out : Output) (sec : PyStr) (pf : ParsedFile) : Output :=
  let content := (assocGet pf.sections sec).getD []
  if (pyStrip content).isEmpty then out
  else
    let sd := parse_section_items content sec
    if sec == pys "HIGHLIGHTS" || sec == pys "PRODUCTS" then
      match sd with
      | .simple items =>
        out.map fun p => if p.1 == sec then (p.1, extendSimpleVal p.2 items) else p
      | .cat _ => out
    else if sec == pys "BUSINESS" || sec == pys "TECHNOLOGY" || sec == pys "RESEARCH" then
      match sd with
      | .cat m =>
        m.foldl (fun o kv =>
          o.map fun p => if p.1 == sec then (p.1, extendCatValOne p.2 kv.1 kv.2) else p) out
      | .simple _ => out
    else out

/-- merge_files_to_json.  The files argument carries listdir order and
per-name content; non-md names are filtered, an empty selection makes the
source print and return without output (none), and the sort stage can
raise (none).  Section order is the fixed five-name list, files inner. -/
def merge_files_to_json (folderName : PyStr) (files : List (PyStr × PyStr)) (nowYear : Nat) :
    Option Output :=
  let mdFiles := (files.map (·.1)).filter (fun f => strEnds f (pys ".md"))
  if mdFiles.isEmpty then none
  else
    match sort_files_by_date mdFiles folderName nowYear with
    | none => none
    | some sorted =>
      let parsed := sorted.map fun f =>
        parse_markdown_file f ((assocGet files f).getD [])
      some (sectionNamesList.foldl
        (fun out sec => parsed.foldl (fun o pf => mergeOne o sec pf) out) initJson)

/-- Items of one document for one section as merged by the inner loop. -/
def docSectionItems (files : List (PyStr × PyStr)) (sec : PyStr) (f : PyStr) : List Item :=
  let pf := parse_markdown_file f ((assocGet files f).getD [])
  let c := (assocGet pf.sections sec).getD []
  if (pyStrip c).isEmpty then []
  else
    match parse_section_items c sec with
    | .simple l => l
    | .cat _ => []

theorem foldl_preserve {α β : Type} (P : α → Prop) (step : α → β → α) (l : List β)
    (init : α) (h0 : P init) (hstep : ∀ a b, b ∈ l → P a → P (step a b)) :
    P (l.foldl step init) := by
  induction l generalizing init with
  | nil => exact h0
  | cons b t ih =>
    exact ih (step init b) (hstep init b (by simp) h0)
      (fun a c hc ha => hstep a c (by simp [hc]) ha)

theorem assocGet_cons {α : Type} (p : PyStr × α) (t : List (PyStr × α)) (k : PyStr) :
    assocGet (p :: t) k = if (p.1 == k) = true then some p.2 else assocGet t k := by
  by_cases h : (p.1 == k) = true <;> simp [assocGet, List.find?_cons, h]

theorem mapUpdate_fst {α : Type} (out : List (PyStr × α)) (sec : PyStr) (g : α → α) :
    (out.map fun p => if (p.1 == sec) = true then (p.1, g p.2) else p).map Prod.fst =
      out.map Prod.fst := by
  induction out with
  | nil => rfl
  | cons p t ih =>
    simp only [List.map_cons, ih]
    by_cases h : (p.1 == sec) = true <;> simp [h]

theorem assocGet_mapUpdate {α : Type} (out : List (PyStr × α)) (sec k : PyStr) (g : α → α) :
    assocGet (out.map fun p => if (p.1 == sec) = true then (p.1, g p.2) else p) k =
      if k = sec then (assocGet out k).map g else assocGet out k := by
  induction out with
  | nil => by_cases h : k = sec <;> simp [assocGet, h]
  | cons p t ih =>
    simp only [List.map_cons]
    by_cases hps : (p.1 == sec) = true
    · have hps' : p.1 = sec := by simpa using hps
      by_cases hk : (p.1 == k) = true
      · have hk' : p.1 = k := by simpa using hk
        have hks : k = sec := by rw [← hk', hps']
        simp [assocGet_cons, hk, hks, hps]
      · have hkns : ¬(k = sec) := fun he =>
          (by simpa using hk : ¬p.1 = k) (by rw [hps', he])
        simp [assocGet_cons, hk, hkns, hps] at *
        simpa [hkns] using ih
    · by_cases hk : (p.1 == k) = true
      · have hkns : ¬(k = sec) := fun he =>
          (by simpa using hps : ¬p.1 = sec)
            (by rw [(by simpa using hk : p.1 = k), he])
        simp [assocGet_cons, hk, hkns, hps]
      · simp [assocGet_cons, hk, hps] at *
        by_cases hks : k = sec <;> simp [hks] at ih ⊢ <;> exact ih

/-- The fixed output schema: all five section keys in order, simple
sections holding lists, categorized sections holding exactly their fixed
subcategory keys, each mapped to a list (by the SecData type, values are
lists, never null). -/
def Skel (out : Output) : Prop :=
  out.map Prod.fst = sectionNamesList ∧
  (∃ l, assocGet out (pys "HIGHLIGHTS") = some (.simple l)) ∧
  (∃ m, assocGet out (pys "BUSINESS") = some (.cat m) ∧
    m.map Prod.fst = [pys "Funding & Investment", pys "Company Updates",
      pys "Regulatory Developments", pys "Market Trends"]) ∧
  (∃ l, assocGet out (pys "PRODUCTS") = some (.simple l)) ∧
  (∃ m, assocGet out (pys "TECHNOLOGY") = some (.cat m) ∧
    m.map Prod.fst = [pys "Open Source Projects", pys "Models & Datasets",
      pys "Developer Tools & Demos"]) ∧
  (∃ m, assocGet out (pys "RESEARCH") = some (.cat m) ∧
    m.map Prod.fst = [pys "Paper of the Week", pys "Notable Research"])

theorem update_skel (o : Output) (sec : PyStr) (g : SecData → SecData)
    (hgs : ∀ l, ∃ l2, g (.simple l) = .simple l2)
    (hgc : ∀ m, ∃ m2, g (.cat m) = .cat m2 ∧ m2.map Prod.fst = m.map Prod.fst)
    (h : Skel o) :
    Skel (o.map fun p => if (p.1 == sec) = true then (p.1, g p.2) else p) := by
  obtain ⟨hf, ⟨lH, hH⟩, ⟨mB, hB, hBk⟩, ⟨lP, hP⟩, ⟨mT, hT, hTk⟩, ⟨mR, hR, hRk⟩⟩ := h
  refine ⟨by rw [mapUpdate_fst]; exact hf, ?_, ?_, ?_, ?_, ?_⟩
  · rw [assocGet_mapUpdate]
    by_cases hs : pys "HIGHLIGHTS" = sec
    · obtain ⟨l2, hg⟩ := hgs lH
      exact ⟨l2, by rw [if_pos hs, hH]; simp [hg]⟩
    · exact ⟨lH, by simp [hs, hH]⟩
  · rw [assocGet_mapUpdate]
    by_cases hs : pys "BUSINESS" = sec
    · obtain ⟨m2, hg, hk⟩ := hgc mB
      exact ⟨m2, by rw [if_pos hs, hB]; simp [hg], by rw [hk]; exact hBk⟩
    · exact ⟨mB, by simp [hs, hB], hBk⟩
  · rw [assocGet_mapUpdate]
    by_cases hs : pys "PRODUCTS" = sec
    · obtain ⟨l2, hg⟩ := hgs lP
      exact ⟨l2, by rw [if_pos hs, hP]; simp [hg]⟩
    · exact ⟨lP, by simp [hs, hP]⟩
  · rw [assocGet_mapUpdate]
    by_cases hs : pys "TECHNOLOGY" = sec
    · obtain ⟨m2, hg, hk⟩ := hgc mT
      exact ⟨m2, by rw [if_pos hs, hT]; simp [hg], by rw [hk]; exact hTk⟩
    · exact ⟨mT, by simp [hs, hT], hTk⟩
  · rw [assocGet_mapUpdate]
    by_cases hs : pys "RESEARCH" = sec
    · obtain ⟨m2, hg, hk⟩ := hgc mR
      exact ⟨m2, by rw [if_pos hs, hR]; simp [hg], by rw [hk]; exact hRk⟩
    · exact ⟨mR, by simp [hs, hR], hRk⟩

theorem mergeOne_skel (o : Output) (sec : PyStr) (pf : ParsedFile) (h : Skel o) :
    Skel (mergeOne o sec pf) := by
  simp only [mergeOne]
  by_cases h1 : (pyStrip ((assocGet pf.sections sec).getD [])).isEmpty = true
  · rw [if_pos h1]; exact h
  · rw [if_neg h1]
    by_cases h2 : (sec == pys "HIGHLIGHTS" || sec == pys "PRODUCTS") = true
    · rw [if_pos h2]
      cases hp : parse_section_items ((assocGet pf.sections sec).getD []) sec with
      | simple items =>
        exact update_skel o sec (fun sd => extendSimpleVal sd items)
          (fun l => ⟨l ++ items, rfl⟩) (fun m => ⟨m, rfl, rfl⟩) h
      | cat m => exact h
    · rw [if_neg h2]
      by_cases h3 :
          (sec == pys "BUSINESS" || sec == pys "TECHNOLOGY" || sec == pys "RESEARCH") = true
      · rw [if_pos h3]
        cases hp : parse_section_items ((assocGet pf.sections sec).getD []) sec with
        | cat m =>
          refine foldl_preserve Skel _ m o h (fun a kv _ ha => ?_)
          exact update_skel a sec (fun sd => extendCatValOne sd kv.1 kv.2)
            (fun l => ⟨l, rfl⟩)
            (fun mm => ⟨mm.map fun q => if (q.1 == kv.1) = true then (q.1, q.2 ++ kv.2) else q,
              by rfl, mapUpdate_fst mm kv.1 (fun v => v ++ kv.2)⟩) ha
        | simple l => exact h
      · rw [if_neg h3]; exact h

/-- C8 confirmed: any produced output structure carries all five section
keys in order, list values for HIGHLIGHTS and PRODUCTS, and every fixed
subcategory key with a list value under BUSINESS, TECHNOLOGY and
RESEARCH, regardless of the input documents. -/
theorem C8_fixed_schema (folderName : PyStr) (files : List (PyStr × PyStr)) (nowYear : Nat)
    (out : Output) (hm : merge_files_to_json folderName files nowYear = some out) :
    Skel out := by
  unfold merge_files_to_json at hm
  by_cases he : ((files.map (·.1)).filter (fun f => strEnds f (pys ".md"))).isEmpty = true
  · simp [he] at hm
  · simp only [he, Bool.false_eq_true, if_false] at hm
    cases hs : sort_files_by_date ((files.map (·.1)).filter (fun f => strEnds f (pys ".md")))
        folderName nowYear with
    | none => rw [hs] at hm; cases hm
    | some sorted =>
      rw [hs] at hm
      have hout := Option.some.inj hm
      rw [← hout]
      have hinit : Skel initJson := by
        refine ⟨by decide, ⟨[], by decide⟩,
          ⟨[(pys "Funding & Investment", []), (pys "Company Updates", []),
            (pys "Regulatory Developments", []), (pys "Market Trends", [])],
            by decide, by decide⟩,
          ⟨[], by decide⟩,
          ⟨[(pys "Open Source Projects", []), (pys "Models & Datasets", []),
            (pys "Developer Tools & Demos", [])], by decide, by decide⟩,
          ⟨[(pys "Paper of the Week", []), (pys "Notable Research", [])],
            by decide, by decide⟩⟩
      refine foldl_preserve Skel _ sectionNamesList initJson hinit (fun a sec _ ha => ?_)
      exact foldl_preserve Skel _ _ a ha (fun o pf _ ho => mergeOne_skel o sec pf ho)

/-- Witness for C8_fixed_schema on a one-file batch with empty content,
whose merge result is exactly the seeded structure. -/
theorem C8_fixed_schema_witness : Skel initJson :=
  C8_fixed_schema (pys "7.6-7.12") [(pys "7-6.md", pys "")] 2025 initJson (by decide)

/-- Items contributed to a section by one already parsed file. -/
def pfSectionItems (pf : ParsedFile) (sec : PyStr) : List Item :=
  let c := (assocGet pf.sections sec).getD []
  if (pyStrip c).isEmpty then []
  else
    match parse_section_items c sec with
    | .simple l => l
    | .cat _ => []

theorem docSectionItems_eq (files : List (PyStr × PyStr)) (sec : PyStr) (f : PyStr) :
    docSectionItems files sec f =
      pfSectionItems (parse_markdown_file f ((assocGet files f).getD [])) sec := rfl

theorem mergeOne_keeps (o : Output) (sec : PyStr) (pf : ParsedFile) (k : PyStr)
    (hk : k ≠ sec) : assocGet (mergeOne o sec pf) k = assocGet o k := by
  simp only [mergeOne]
  by_cases h1 : (pyStrip ((assocGet pf.sections sec).getD [])).isEmpty = true
  · rw [if_pos h1]
  · rw [if_neg h1]
    by_cases h2 : (sec == pys "HIGHLIGHTS" || sec == pys "PRODUCTS") = true
    · rw [if_pos h2]
      cases parse_section_items ((assocGet pf.sections sec).getD []) sec with
      | simple items =>
        dsimp only
        rw [assocGet_mapUpdate o sec k (fun v => extendSimpleVal v items), if_neg hk]
      | cat m => rfl
    · rw [if_neg h2]
      by_cases h3 :
          (sec == pys "BUSINESS" || sec == pys "TECHNOLOGY" || sec == pys "RESEARCH") = true
      · rw [if_pos h3]
        cases parse_section_items ((assocGet pf.sections sec).getD []) sec with
        | cat m =>
          refine foldl_preserve (fun a => assocGet a k = assocGet o k) _ m o rfl
            (fun a kv _ ha => ?_)
          dsimp only
          rw [assocGet_mapUpdate a sec k (fun v => extendCatValOne v kv.1 kv.2), if_neg hk, ha]
        | simple l => rfl
      · rw [if_neg h3]

theorem mergeOne_highlights (o : Output) (pf : ParsedFile) (l : List Item)
    (h : assocGet o (pys "HIGHLIGHTS") = some (.simple l)) :
    assocGet (mergeOne o (pys "HIGHLIGHTS") pf) (pys "HIGHLIGHTS") =
      some (.simple (l ++ pfSectionItems pf (pys "HIGHLIGHTS"))) := by
  simp only [mergeOne, pfSectionItems]
  by_cases h1 : (pyStrip ((assocGet pf.sections (pys "HIGHLIGHTS")).getD [])).isEmpty = true
  · rw [if_pos h1, if_pos h1, h]
    simp
  · rw [if_neg h1, if_neg h1]
    have h2 : ((pys "HIGHLIGHTS" : PyStr) == pys "HIGHLIGHTS" ||
        (pys "HIGHLIGHTS" : PyStr) == pys "PRODUCTS") = true := by decide
    rw [if_pos h2]
    have hdisp : parse_section_items ((assocGet pf.sections (pys "HIGHLIGHTS")).getD [])
        (pys "HIGHLIGHTS") =
        .simple (parse_simple_section ((assocGet pf.sections (pys "HIGHLIGHTS")).getD [])
          (pys "HIGHLIGHTS")) := by
      simp [parse_section_items]
    rw [hdisp]
    dsimp only
    rw [assocGet_mapUpdate o (pys "HIGHLIGHTS") (pys "HIGHLIGHTS")
      (fun v => extendSimpleVal v
        (parse_simple_section ((assocGet pf.sections (pys "HIGHLIGHTS")).getD [])
          (pys "HIGHLIGHTS"))), if_pos rfl, h]
    rfl

theorem foldl_mergeOne_highlights (parsed : List ParsedFile) (o : Output) (l : List Item)
    (h : assocGet o (pys "HIGHLIGHTS") = some (.simple l)) :
    assocGet (parsed.foldl (fun o pf => mergeOne o (pys "HIGHLIGHTS") pf) o)
      (pys "HIGHLIGHTS") =
      some (.simple (l ++ parsed.flatMap (fun pf => pfSectionItems pf (pys "HIGHLIGHTS")))) := by
  induction parsed generalizing o l with
  | nil => simpa using h
  | cons pf t ih =>
    rw [List.foldl_cons, List.flatMap_cons,
      ih _ _ (mergeOne_highlights o pf l h), List.append_assoc]

theorem foldl_mergeOne_keeps (parsed : List ParsedFile) (o : Output) (sec k : PyStr)
    (hk : k ≠ sec) :
    assocGet (parsed.foldl (fun o pf => mergeOne o sec pf) o) k = assocGet o k :=
  foldl_preserve (fun a => assocGet a k = assocGet o k) _ parsed o rfl
    (fun a pf _ ha => by dsimp only; rw [mergeOne_keeps a sec pf k hk]; exact ha)

/-- The normalization invariant: non-empty description, and a non-empty
title whenever the title key is present. -/
def ItemOk (it : Item) : Prop :=
  it.description ≠ [] ∧ ∀ t, it.title = some t → t ≠ []

/-- All items stored under one section value. -/
def secItems : SecData → List Item
  | .simple l => l
  | .cat m => m.flatMap (fun q => q.2)

/-- Every item anywhere in the output satisfies the invariant. -/
def OutputOk (out : Output) : Prop :=
  ∀ p ∈ out, ∀ it ∈ secItems p.2, ItemOk it

theorem clean1_ok {r : RawItem} {it : Item} (h : clean1 r = some it) : ItemOk it := by
  by_cases hd : (subLinks (pyStrip r.description)).isEmpty = true
  · by_cases ht : (r.title.getD []).isEmpty = true
    · simp [clean1, hd, ht] at h
    · simp only [clean1, hd, ht, Bool.and_false, Bool.false_eq_true, if_false,
        if_true, Option.some.injEq] at h
      rw [← h]
      constructor
      · simp [List.isEmpty_eq_false] at ht
        simpa using ht
      · intro t htt
        simp at htt
  · simp only [clean1, hd, Bool.false_and, Bool.false_eq_true, if_false,
      Option.some.injEq] at h
    rw [← h]
    constructor
    · simp [List.isEmpty_eq_false] at hd
      simpa using hd
    · intro t htt
      by_cases ht : (r.title.getD []).isEmpty = true
      · simp [ht] at htt
      · simp [ht] at htt
        rw [← htt]
        simpa [List.isEmpty_eq_false] using ht

theorem clean_items_ok {l : List RawItem} {it : Item} (h : it ∈ clean_items l) : ItemOk it := by
  obtain ⟨r, _, hr⟩ := List.mem_filterMap.mp h
  exact clean1_ok hr

theorem parse_section_items_ok (c s : PyStr) :
    ∀ it ∈ secItems (parse_section_items c s), ItemOk it := by
  intro it hit
  unfold parse_section_items at hit
  split_ifs at hit
  · exact clean_items_ok (by simpa [secItems, parse_simple_section] using hit)
  · simp only [secItems] at hit
    obtain ⟨q, hq, hitq⟩ := List.mem_flatMap.mp hit
    obtain ⟨p0, hp0, rfl⟩ := List.mem_map.mp hq
    exact clean_items_ok hitq
  · exact clean_items_ok (by simpa [secItems, parse_simple_section] using hit)

theorem mapUpdate_ok (o : Output) (sec : PyStr) (g : SecData → SecData)
    (h : OutputOk o)
    (hg : ∀ sd, (∀ it ∈ secItems sd, ItemOk it) → ∀ it ∈ secItems (g sd), ItemOk it) :
    OutputOk (o.map fun p => if (p.1 == sec) = true then (p.1, g p.2) else p) := by
  intro p hp it hit
  obtain ⟨q, hq, hpe⟩ := List.mem_map.mp hp
  by_cases hqs : (q.1 == sec) = true
  · rw [if_pos hqs] at hpe
    rw [← hpe] at hit
    exact hg q.2 (h q hq) it hit
  · rw [if_neg hqs] at hpe
    rw [← hpe] at hit
    exact h q hq it hit

theorem mergeOne_ok (o : Output) (sec : PyStr) (pf : ParsedFile) (h : OutputOk o) :
    OutputOk (mergeOne o sec pf) := by
  simp only [mergeOne]
  by_cases h1 : (pyStrip ((assocGet pf.sections sec).getD [])).isEmpty = true
  · rw [if_pos h1]; exact h
  · rw [if_neg h1]
    by_cases h2 : (sec == pys "HIGHLIGHTS" || sec == pys "PRODUCTS") = true
    · rw [if_pos h2]
      cases hp : parse_section_items ((assocGet pf.sections sec).getD []) sec with
      | simple items =>
        dsimp only
        refine mapUpdate_ok o sec (fun v => extendSimpleVal v items) h
          (fun sd hsd it hit => ?_)
        cases sd with
        | simple l =>
          simp only [extendSimpleVal, secItems] at hit ⊢
          rcases List.mem_append.mp hit with hl | hr
          · exact hsd it hl
          · have := parse_section_items_ok ((assocGet pf.sections sec).getD []) sec
            rw [hp] at this
            exact this it (by simpa [secItems] using hr)
        | cat m => exact hsd it hit
      | cat m => exact h
    · rw [if_neg h2]
      by_cases h3 :
          (sec == pys "BUSINESS" || sec == pys "TECHNOLOGY" || sec == pys "RESEARCH") = true
      · rw [if_pos h3]
        cases hp : parse_section_items ((assocGet pf.sections sec).getD []) sec with
        | cat m =>
          dsimp only
          refine foldl_preserve OutputOk _ m o h (fun a kv hkv ha => ?_)
          refine mapUpdate_ok a sec (fun v => extendCatValOne v kv.1 kv.2) ha
            (fun sd hsd it hit => ?_)
          cases sd with
          | simple l => exact hsd it hit
          | cat mm =>
            simp only [extendCatValOne, secItems] at hit ⊢
            obtain ⟨q, hq, hitq⟩ := List.mem_flatMap.mp hit
            obtain ⟨q0, hq0, hqe⟩ := List.mem_map.mp hq
            by_cases hqk : (q0.1 == kv.1) = true
            · rw [if_pos hqk] at hqe
              rw [← hqe] at hitq
              rcases List.mem_append.mp hitq with hl | hr
              · exact hsd it (List.mem_flatMap.mpr ⟨q0, hq0, hl⟩)
              · have := parse_section_items_ok ((assocGet pf.sections sec).getD []) sec
                rw [hp] at this
                exact this it (by
                  simp only [secItems]
                  exact List.mem_flatMap.mpr ⟨kv, hkv, hr⟩)
            · rw [if_neg hqk] at hqe
              rw [← hqe] at hitq
              exact hsd it (List.mem_flatMap.mpr ⟨q0, hq0, hitq⟩)
        | simple l => exact h
      · rw [if_neg h3]; exact h

/-- C1 confirmed: every item anywhere in a produced output has a
non-empty description and, when a title key is present, a non-empty
title; and a raw item whose description and title are both empty after
stripping and link removal is dropped by clean_items rather than
emitted. -/
theorem C1_normalization_invariant :
    (∀ (folderName : PyStr) (files : List (PyStr × PyStr)) (nowYear : Nat) (out : Output),
      merge_files_to_json folderName files nowYear = some out → OutputOk out) ∧
    (∀ (pre post : List RawItem) (r : RawItem),
      subLinks (pyStrip r.description) = [] → r.title.getD [] = [] →
      clean_items (pre ++ r :: post) = clean_items pre ++ clean_items post) := by
  constructor
  · intro folderName files nowYear out hm
    unfold merge_files_to_json at hm
    by_cases he : ((files.map (·.1)).filter (fun f => strEnds f (pys ".md"))).isEmpty = true
    · simp [he] at hm
    · simp only [he, Bool.false_eq_true, if_false] at hm
      cases hs : sort_files_by_date ((files.map (·.1)).filter (fun f => strEnds f (pys ".md")))
          folderName nowYear with
      | none => rw [hs] at hm; cases hm
      | some sorted =>
        rw [hs] at hm
        dsimp only at hm
        rw [← Option.some.inj hm]
        have hinit : OutputOk initJson := by
          intro p hp it hit
          simp only [initJson, List.mem_cons, List.not_mem_nil, or_false] at hp
          rcases hp with rfl | rfl | rfl | rfl | rfl <;> simp [secItems] at hit
        refine foldl_preserve OutputOk _ sectionNamesList initJson hinit
          (fun a sec _ ha => ?_)
        exact foldl_preserve OutputOk _ _ a ha (fun o pf _ ho => mergeOne_ok o sec pf ho)
  · intro pre post r h1 h2
    have hnone : clean1 r = none := by
      simp [clean1, h1, h2]
    simp [clean_items, List.filterMap_append, List.filterMap_cons, hnone]

/-- Witness for C1_normalization_invariant: a one-file batch whose merge
is the seeded structure, and a concrete whitespace-only raw item dropped
between two lists. -/
theorem C1_normalization_invariant_witness :
    OutputOk initJson ∧
    clean_items ([⟨some (pys "T"), pys "d", none⟩] ++ ⟨none, pys " ", none⟩ :: []) =
      clean_items [⟨some (pys "T"), pys "d", none⟩] ++ clean_items [] :=
  ⟨C1_normalization_invariant.1 (pys "7.6-7.12") [(pys "7-6.md", pys "")] 2025 initJson
     (by decide),
   C1_normalization_invariant.2 [⟨some (pys "T"), pys "d", none⟩] [] ⟨none, pys " ", none⟩
     (by decide) (by decide)⟩

/-- Items contributed by one parsed file to one fixed subcategory of a
categorized section: the entries of the parsed subcategory dictionary
whose key matches, in order (an empty section contributes nothing). -/
def pfCatItems (pf : ParsedFile) (sec k : PyStr) : List Item :=
  let c := (assocGet pf.sections sec).getD []
  if (pyStrip c).isEmpty then []
  else
    match parse_section_items c sec with
    | .cat m => (m.filter (fun kv => k == kv.1)).flatMap (fun kv => kv.2)
    | .simple _ => []

/-- The same, for a document named in the files list. -/
def docCatItems (files : List (PyStr × PyStr)) (sec k : PyStr) (f : PyStr) : List Item :=
  pfCatItems (parse_markdown_file f ((assocGet files f).getD [])) sec k

theorem foldl_extendCat (m : List (PyStr × List Item)) (o : Output) (sec : PyStr)
    (mm : List (PyStr × List Item)) (h : assocGet o sec = some (.cat mm)) :
    assocGet (m.foldl (fun o kv =>
        o.map fun p => if (p.1 == sec) = true then (p.1, extendCatValOne p.2 kv.1 kv.2) else p)
      o) sec =
      some (.cat (mm.map fun q =>
        (q.1, q.2 ++ (m.filter (fun kv => q.1 == kv.1)).flatMap (fun kv => kv.2)))) := by
  induction m generalizing o mm with
  | nil =>
    simpa [List.flatMap_nil, Prod.mk.eta] using h
  | cons kv t ih =>
    rw [List.foldl_cons]
    have hstep : assocGet (o.map fun p =>
        if (p.1 == sec) = true then (p.1, extendCatValOne p.2 kv.1 kv.2) else p) sec =
        some (.cat (mm.map fun q =>
          if (q.1 == kv.1) = true then (q.1, q.2 ++ kv.2) else q)) := by
      rw [assocGet_mapUpdate o sec sec (fun v => extendCatValOne v kv.1 kv.2), if_pos rfl, h]
      rfl
    rw [ih _ _ hstep]
    congr 2
    rw [List.map_map]
    apply List.map_congr_left
    intro q _
    by_cases hqk : (q.1 == kv.1) = true
    · have hqk2 : q.1 = kv.1 := by simpa using hqk
      simp [Function.comp_def, hqk, hqk2, List.filter_cons, List.append_assoc]
    · have hqk2 : ¬(q.1 = kv.1) := by simpa using hqk
      simp [Function.comp_def, hqk, hqk2, List.filter_cons]

theorem mergeOne_cat (o : Output) (sec : PyStr) (pf : ParsedFile)
    (mm : List (PyStr × List Item))
    (hs1 : (sec == pys "HIGHLIGHTS" || sec == pys "PRODUCTS") = false)
    (hs2 : (sec == pys "BUSINESS" || sec == pys "TECHNOLOGY" || sec == pys "RESEARCH") = true)
    (h : assocGet o sec = some (.cat mm)) :
    assocGet (mergeOne o sec pf) sec =
      some (.cat (mm.map fun q => (q.1, q.2 ++ pfCatItems pf sec q.1))) := by
  simp only [mergeOne]
  by_cases h1 : (pyStrip ((assocGet pf.sections sec).getD [])).isEmpty = true
  · rw [if_pos h1, h]
    simp [pfCatItems, h1]
  · rw [if_neg h1, if_neg (by rw [hs1]; exact Bool.false_ne_true), if_pos hs2]
    have hdisp : parse_section_items ((assocGet pf.sections sec).getD []) sec =
        .cat (parse_categorized_section ((assocGet pf.sections sec).getD []) sec) := by
      unfold parse_section_items
      rw [if_neg (by rw [hs1]; exact Bool.false_ne_true), if_pos hs2]
    rw [hdisp]
    dsimp only
    rw [foldl_extendCat _ o sec mm h]
    congr 2
    apply List.map_congr_left
    intro q _
    simp [pfCatItems, h1, hdisp]

theorem foldl_mergeOne_cat (parsed : List ParsedFile) (o : Output) (sec : PyStr)
    (hs1 : (sec == pys "HIGHLIGHTS" || sec == pys "PRODUCTS") = false)
    (hs2 : (sec == pys "BUSINESS" || sec == pys "TECHNOLOGY" || sec == pys "RESEARCH") = true)
    (mm : List (PyStr × List Item)) (h : assocGet o sec = some (.cat mm)) :
    assocGet (parsed.foldl (fun o pf => mergeOne o sec pf) o) sec =
      some (.cat (mm.map fun q =>
        (q.1, q.2 ++ parsed.flatMap (fun pf => pfCatItems pf sec q.1)))) := by
  induction parsed generalizing o mm with
  | nil => simpa [Prod.mk.eta] using h
  | cons pf t ih =>
    rw [List.foldl_cons, ih _ _ (mergeOne_cat o sec pf mm hs1 hs2 h)]
    congr 2
    rw [List.map_map]
    apply List.map_congr_left
    intro q _
    simp [Function.comp_def, List.flatMap_cons, List.append_assoc]

theorem mergeOne_simple (o : Output) (sec : PyStr) (pf : ParsedFile) (l : List Item)
    (hs1 : (sec == pys "HIGHLIGHTS" || sec == pys "PRODUCTS") = true)
    (h : assocGet o sec = some (.simple l)) :
    assocGet (mergeOne o sec pf) sec = some (.simple (l ++ pfSectionItems pf sec)) := by
  simp only [mergeOne, pfSectionItems]
  by_cases h1 : (pyStrip ((assocGet pf.sections sec).getD [])).isEmpty = true
  · rw [if_pos h1, if_pos h1, h]
    simp
  · rw [if_neg h1, if_neg h1, if_pos hs1]
    have hdisp : parse_section_items ((assocGet pf.sections sec).getD []) sec =
        .simple (parse_simple_section ((assocGet pf.sections sec).getD []) sec) := by
      unfold parse_section_items
      rw [if_pos hs1]
    rw [hdisp]
    dsimp only
    rw [assocGet_mapUpdate o sec sec
      (fun v => extendSimpleVal v
        (parse_simple_section ((assocGet pf.sections sec).getD []) sec)), if_pos rfl, h]
    rfl

theorem foldl_mergeOne_simple (parsed : List ParsedFile) (o : Output) (sec : PyStr)
    (hs1 : (sec == pys "HIGHLIGHTS" || sec == pys "PRODUCTS") = true)
    (l : List Item) (h : assocGet o sec = some (.simple l)) :
    assocGet (parsed.foldl (fun o pf => mergeOne o sec pf) o) sec =
      some (.simple (l ++ parsed.flatMap (fun pf => pfSectionItems pf sec))) := by
  induction parsed generalizing o l with
  | nil => simpa using h
  | cons pf t ih =>
    rw [List.foldl_cons, ih _ _ (mergeOne_simple o sec pf l hs1 h), List.flatMap_cons,
      List.append_assoc]

theorem output_ext (m : Output) (v1 v2 v3 v4 v5 : SecData)
    (hk : m.map Prod.fst = sectionNamesList)
    (h1 : assocGet m (pys "HIGHLIGHTS") = some v1)
    (h2 : assocGet m (pys "BUSINESS") = some v2)
    (h3 : assocGet m (pys "PRODUCTS") = some v3)
    (h4 : assocGet m (pys "TECHNOLOGY") = some v4)
    (h5 : assocGet m (pys "RESEARCH") = some v5) :
    m = [(pys "HIGHLIGHTS", v1), (pys "BUSINESS", v2), (pys "PRODUCTS", v3),
      (pys "TECHNOLOGY", v4), (pys "RESEARCH", v5)] := by
  rcases m with _ |
    ⟨⟨k1, a1⟩, _ | ⟨⟨k2, a2⟩, _ | ⟨⟨k3, a3⟩, _ | ⟨⟨k4, a4⟩, _ | ⟨⟨k5, a5⟩, _ | ⟨p6, rest⟩⟩⟩⟩⟩⟩ <;>
    simp only [sectionNamesList, List.map_cons, List.map_nil, List.cons.injEq,
      List.map_eq_nil_iff] at hk
  · exact absurd hk (by simp)
  · exact absurd hk (by simp)
  · exact absurd hk (by simp)
  · exact absurd hk (by simp)
  · exact absurd hk (by simp)
  · obtain ⟨e1, e2, e3, e4, e5, -⟩ := hk
    subst e1; subst e2; subst e3; subst e4; subst e5
    simp +decide [assocGet_cons] at h1 h2 h3 h4 h5
    subst h1; subst h2; subst h3; subst h4; subst h5
    rfl
  · exact absurd hk (by simp)

theorem flatMap_comp {α β γ : Type} (L : List α) (g : α → β) (F : β → List γ) :
    (L.map g).flatMap F = L.flatMap (fun x => F (g x)) := by
  induction L with
  | nil => rfl
  | cons a t ih => simp only [List.map_cons, List.flatMap_cons, ih]

/-- C9: the merged output is a fixed canonical structure determined by the
sorted document list and the parsed per-document items: HIGHLIGHTS and
PRODUCTS are the plain concatenation, document by document in sorted
order, of each document's parsed items, and every fixed subcategory of
BUSINESS, TECHNOLOGY and RESEARCH is the plain concatenation of each
document's items for that subcategory. Two runs on the same unchanged
document set both equal this canonical form, so the output is
byte-identical across runs; and since every section value is a plain
concatenation with no filtering, repeated identical items contributed by
different documents each appear in the output, in every section. -/
theorem C9_determinism_no_dedup (folderName : PyStr) (files : List (PyStr × PyStr))
    (nowYear : Nat) (sorted : List PyStr)
    (hs : sort_files_by_date ((files.map (·.1)).filter (fun f => strEnds f (pys ".md")))
      folderName nowYear = some sorted)
    (hne : ((files.map (·.1)).filter (fun f => strEnds f (pys ".md"))).isEmpty = false) :
    merge_files_to_json folderName files nowYear = some
      [(pys "HIGHLIGHTS",
        .simple (sorted.flatMap fun f => docSectionItems files (pys "HIGHLIGHTS") f)),
       (pys "BUSINESS", .cat
         [(pys "Funding & Investment", sorted.flatMap fun f =>
            docCatItems files (pys "BUSINESS") (pys "Funding & Investment") f),
          (pys "Company Updates", sorted.flatMap fun f =>
            docCatItems files (pys "BUSINESS") (pys "Company Updates") f),
          (pys "Regulatory Developments", sorted.flatMap fun f =>
            docCatItems files (pys "BUSINESS") (pys "Regulatory Developments") f),
          (pys "Market Trends", sorted.flatMap fun f =>
            docCatItems files (pys "BUSINESS") (pys "Market Trends") f)]),
       (pys "PRODUCTS",
        .simple (sorted.flatMap fun f => docSectionItems files (pys "PRODUCTS") f)),
       (pys "TECHNOLOGY", .cat
         [(pys "Open Source Projects", sorted.flatMap fun f =>
            docCatItems files (pys "TECHNOLOGY") (pys "Open Source Projects") f),
          (pys "Models & Datasets", sorted.flatMap fun f =>
            docCatItems files (pys "TECHNOLOGY") (pys "Models & Datasets") f),
          (pys "Developer Tools & Demos", sorted.flatMap fun f =>
            docCatItems files (pys "TECHNOLOGY") (pys "Developer Tools & Demos") f)]),
       (pys "RESEARCH", .cat
         [(pys "Paper of the Week", sorted.flatMap fun f =>
            docCatItems files (pys "RESEARCH") (pys "Paper of the Week") f),
          (pys "Notable Research", sorted.flatMap fun f =>
            docCatItems files (pys "RESEARCH") (pys "Notable Research") f)])] := by
  simp only [merge_files_to_json, hne, Bool.false_eq_true, if_false]
  rw [hs]
  dsimp only
  congr 1
  simp only [sectionNamesList, List.foldl_cons, List.foldl_nil]
  set parsed := sorted.map fun f => parse_markdown_file f ((assocGet files f).getD []) with hparsed
  set o1 := parsed.foldl (fun o pf => mergeOne o (pys "HIGHLIGHTS") pf) initJson with ho1
  set o2 := parsed.foldl (fun o pf => mergeOne o (pys "BUSINESS") pf) o1 with ho2
  set o3 := parsed.foldl (fun o pf => mergeOne o (pys "PRODUCTS") pf) o2 with ho3
  set o4 := parsed.foldl (fun o pf => mergeOne o (pys "TECHNOLOGY") pf) o3 with ho4
  set o5 := parsed.foldl (fun o pf => mergeOne o (pys "RESEARCH") pf) o4 with ho5
  have hinit : Skel initJson := by
    refine ⟨by decide, ⟨[], by decide⟩,
      ⟨[(pys "Funding & Investment", []), (pys "Company Updates", []),
        (pys "Regulatory Developments", []), (pys "Market Trends", [])],
        by decide, by decide⟩,
      ⟨[], by decide⟩,
      ⟨[(pys "Open Source Projects", []), (pys "Models & Datasets", []),
        (pys "Developer Tools & Demos", [])], by decide, by decide⟩,
      ⟨[(pys "Paper of the Week", []), (pys "Notable Research", [])],
        by decide, by decide⟩⟩
  have hskel : Skel o5 := by
    rw [ho5, ho4, ho3, ho2, ho1]
    refine foldl_preserve Skel _ parsed _ ?_
      (fun o pf _ ho => mergeOne_skel o (pys "RESEARCH") pf ho)
    refine foldl_preserve Skel _ parsed _ ?_
      (fun o pf _ ho => mergeOne_skel o (pys "TECHNOLOGY") pf ho)
    refine foldl_preserve Skel _ parsed _ ?_
      (fun o pf _ ho => mergeOne_skel o (pys "PRODUCTS") pf ho)
    refine foldl_preserve Skel _ parsed _ ?_
      (fun o pf _ ho => mergeOne_skel o (pys "BUSINESS") pf ho)
    refine foldl_preserve Skel _ parsed _ ?_
      (fun o pf _ ho => mergeOne_skel o (pys "HIGHLIGHTS") pf ho)
    exact hinit
  have e1 : assocGet o5 (pys "HIGHLIGHTS") =
      some (.simple (parsed.flatMap fun pf => pfSectionItems pf (pys "HIGHLIGHTS"))) := by
    rw [ho5, foldl_mergeOne_keeps parsed o4 (pys "RESEARCH") (pys "HIGHLIGHTS") (by decide),
      ho4, foldl_mergeOne_keeps parsed o3 (pys "TECHNOLOGY") (pys "HIGHLIGHTS") (by decide),
      ho3, foldl_mergeOne_keeps parsed o2 (pys "PRODUCTS") (pys "HIGHLIGHTS") (by decide),
      ho2, foldl_mergeOne_keeps parsed o1 (pys "BUSINESS") (pys "HIGHLIGHTS") (by decide),
      ho1, foldl_mergeOne_simple parsed initJson (pys "HIGHLIGHTS") (by decide) [] rfl,
      List.nil_append]
  have e2 : assocGet o5 (pys "BUSINESS") =
      some (.cat ([(pys "Funding & Investment", []), (pys "Company Updates", []),
        (pys "Regulatory Developments", []), (pys "Market Trends", [])].map fun q =>
          (q.1, q.2 ++ parsed.flatMap fun pf => pfCatItems pf (pys "BUSINESS") q.1))) := by
    rw [ho5, foldl_mergeOne_keeps parsed o4 (pys "RESEARCH") (pys "BUSINESS") (by decide),
      ho4, foldl_mergeOne_keeps parsed o3 (pys "TECHNOLOGY") (pys "BUSINESS") (by decide),
      ho3, foldl_mergeOne_keeps parsed o2 (pys "PRODUCTS") (pys "BUSINESS") (by decide),
      ho2, foldl_mergeOne_cat parsed o1 (pys "BUSINESS") (by decide) (by decide)
        [(pys "Funding & Investment", []), (pys "Company Updates", []),
         (pys "Regulatory Developments", []), (pys "Market Trends", [])]
        (by rw [ho1, foldl_mergeOne_keeps parsed initJson (pys "HIGHLIGHTS") (pys "BUSINESS")
          (by decide)]; rfl)]
  have e3 : assocGet o5 (pys "PRODUCTS") =
      some (.simple (parsed.flatMap fun pf => pfSectionItems pf (pys "PRODUCTS"))) := by
    rw [ho5, foldl_mergeOne_keeps parsed o4 (pys "RESEARCH") (pys "PRODUCTS") (by decide),
      ho4, foldl_mergeOne_keeps parsed o3 (pys "TECHNOLOGY") (pys "PRODUCTS") (by decide),
      ho3, foldl_mergeOne_simple parsed o2 (pys "PRODUCTS") (by decide) []
        (by rw [ho2, foldl_mergeOne_keeps parsed o1 (pys "BUSINESS") (pys "PRODUCTS") (by decide),
          ho1, foldl_mergeOne_keeps parsed initJson (pys "HIGHLIGHTS") (pys "PRODUCTS")
            (by decide)]; rfl),
      List.nil_append]
  have e4 : assocGet o5 (pys "TECHNOLOGY") =
      some (.cat ([(pys "Open Source Projects", []), (pys "Models & Datasets", []),
        (pys "Developer Tools & Demos", [])].map fun q =>
          (q.1, q.2 ++ parsed.flatMap fun pf => pfCatItems pf (pys "TECHNOLOGY") q.1))) := by
    rw [ho5, foldl_mergeOne_keeps parsed o4 (pys "RESEARCH") (pys "TECHNOLOGY") (by decide),
      ho4, foldl_mergeOne_cat parsed o3 (pys "TECHNOLOGY") (by decide) (by decide)
        [(pys "Open Source Projects", []), (pys "Models & Datasets", []),
         (pys "Developer Tools & Demos", [])]
        (by rw [ho3, foldl_mergeOne_keeps parsed o2 (pys "PRODUCTS") (pys "TECHNOLOGY")
            (by decide),
          ho2, foldl_mergeOne_keeps parsed o1 (pys "BUSINESS") (pys "TECHNOLOGY") (by decide),
          ho1, foldl_mergeOne_keeps parsed initJson (pys "HIGHLIGHTS") (pys "TECHNOLOGY")
            (by decide)]; rfl)]
  have e5 : assocGet o5 (pys "RESEARCH") =
      some (.cat ([(pys "Paper of the Week", []), (pys "Notable Research", [])].map fun q =>
          (q.1, q.2 ++ parsed.flatMap fun pf => pfCatItems pf (pys "RESEARCH") q.1))) := by
    rw [ho5, foldl_mergeOne_cat parsed o4 (pys "RESEARCH") (by decide) (by decide)
        [(pys "Paper of the Week", []), (pys "Notable Research", [])]
        (by rw [ho4, foldl_mergeOne_keeps parsed o3 (pys "TECHNOLOGY") (pys "RESEARCH")
            (by decide),
          ho3, foldl_mergeOne_keeps parsed o2 (pys "PRODUCTS") (pys "RESEARCH") (by decide),
          ho2, foldl_mergeOne_keeps parsed o1 (pys "BUSINESS") (pys "RESEARCH") (by decide),
          ho1, foldl_mergeOne_keeps parsed initJson (pys "HIGHLIGHTS") (pys "RESEARCH")
            (by decide)]; rfl)]
  rw [output_ext o5 _ _ _ _ _ hskel.1 e1 e2 e3 e4 e5]
  simp only [List.map_cons, List.map_nil, List.nil_append, hparsed, flatMap_comp]
  rfl

/-- A two-document batch with identical contents, used to instantiate the
canonical-form theorem. -/
def c9files : List (PyStr × PyStr) :=
  [(pys "7-6.md", pys "HIGHLIGHTS\n1. **Model X** launched"),
   (pys "7-7.md", pys "HIGHLIGHTS\n1. **Model X** launched")]

/-- Witness for C9_determinism_no_dedup: on a two-document batch with
identical contents the sort succeeds, the batch is non-empty, and the
merged output is exactly the canonical concatenation structure. -/
theorem C9_determinism_no_dedup_witness :
    sort_files_by_date ((c9files.map (·.1)).filter (fun f => strEnds f (pys ".md")))
        (pys "7.6-7.12") 2025 = some [pys "7-6.md", pys "7-7.md"] ∧
    merge_files_to_json (pys "7.6-7.12") c9files 2025 = some
      [(pys "HIGHLIGHTS",
        .simple ([pys "7-6.md", pys "7-7.md"].flatMap fun f =>
          docSectionItems c9files (pys "HIGHLIGHTS") f)),
       (pys "BUSINESS", .cat
         [(pys "Funding & Investment", [pys "7-6.md", pys "7-7.md"].flatMap fun f =>
            docCatItems c9files (pys "BUSINESS") (pys "Funding & Investment") f),
          (pys "Company Updates", [pys "7-6.md", pys "7-7.md"].flatMap fun f =>
            docCatItems c9files (pys "BUSINESS") (pys "Company Updates") f),
          (pys "Regulatory Developments", [pys "7-6.md", pys "7-7.md"].flatMap fun f =>
            docCatItems c9files (pys "BUSINESS") (pys "Regulatory Developments") f),
          (pys "Market Trends", [pys "7-6.md", pys "7-7.md"].flatMap fun f =>
            docCatItems c9files (pys "BUSINESS") (pys "Market Trends") f)]),
       (pys "PRODUCTS",
        .simple ([pys "7-6.md", pys "7-7.md"].flatMap fun f =>
          docSectionItems c9files (pys "PRODUCTS") f)),
       (pys "TECHNOLOGY", .cat
         [(pys "Open Source Projects", [pys "7-6.md", pys "7-7.md"].flatMap fun f =>
            docCatItems c9files (pys "TECHNOLOGY") (pys "Open Source Projects") f),
          (pys "Models & Datasets", [pys "7-6.md", pys "7-7.md"].flatMap fun f =>
            docCatItems c9files (pys "TECHNOLOGY") (pys "Models & Datasets") f),
          (pys "Developer Tools & Demos", [pys "7-6.md", pys "7-7.md"].flatMap fun f =>
            docCatItems c9files (pys "TECHNOLOGY") (pys "Developer Tools & Demos") f)]),
       (pys "RESEARCH", .cat
         [(pys "Paper of the Week", [pys "7-6.md", pys "7-7.md"].flatMap fun f =>
            docCatItems c9files (pys "RESEARCH") (pys "Paper of the Week") f),
          (pys "Notable Research", [pys "7-6.md", pys "7-7.md"].flatMap fun f =>
            docCatItems c9files (pys "RESEARCH") (pys "Notable Research") f)])] :=
  ⟨by decide,
   C9_determinism_no_dedup (pys "7.6-7.12") c9files 2025
     [pys "7-6.md", pys "7-7.md"] (by decide) (by decide)⟩
